import Mathlib

/-! Vulcan `instructions` package: embedding and verified properties.

A shallow embedding of `src/instructions/{rate,headers,upstream,instructions}.go`.

Conventions of the embedding

* A Go function returning `(T, error)` becomes a function into `Except String T`; the string is
  the format string given to `fmt.Errorf` (arguments of `%T`, `%v`, `%#v` verbs are not rendered,
  a `%s` verb with a string argument is).
* `interface{}` values are the type `Value`: the shapes `encoding/json` decodes into
  (`nil`, `bool`, `float64`, `string`, `[]interface{}`, `map[string]interface{}`) plus one
  constructor standing for a value of any other dynamic type.
* A `map[string]interface{}` is an association list: the list order is the order in which a
  `range` loop visits the entries, lookup returns the first entry with the key.
* Go `int`, `int64` and `time.Duration` are `Int`; the 64-bit range is made explicit where a
  conversion or an overflow can be reached.
-/

namespace Instructions

/-! ## Machine integers -/

/-- Smallest `int64` (and `int` on 64-bit targets). -/
def minInt64 : Int := -9223372036854775808

/-- Largest `int64` (and `int` on 64-bit targets). -/
def maxInt64 : Int := 9223372036854775807

/-- The int64 that an integer wraps around to (two's complement arithmetic modulo 2^64). -/
def wrapInt64 (i : Int) : Int := (i - minInt64) % 18446744073709551616 + minInt64

/-! ## `float64` -/

/-- A `float64`. A finite value is `m * 2 ^ e` (a float64 has `|m| < 2 ^ 53` and
`-1074 ≤ e ≤ 971`; the embedding does not need the bounds, so wider mantissas are allowed and
behave as exact dyadic numbers). -/
inductive Float64 where
  | finite (m : Int) (e : Int)
  | inf (neg : Bool)
  | nan
deriving DecidableEq, Repr

namespace Float64

/-- Integer part of `m * 2 ^ e`, rounding toward zero. -/
def trunc (m e : Int) : Int :=
  if 0 ≤ e then m * 2 ^ e.toNat else Int.tdiv m (2 ^ (-e).toNat)

/-- Go conversion `int(f)` / `int64(f)`: the fraction is discarded (truncation toward zero).
When the value does not fit the result is implementation-dependent in Go; the amd64 result
(`0x8000000000000000`, the smallest int64) is used, also for NaN and the infinities. -/
def toInt : Float64 → Int
  | finite m e =>
    let i := trunc m e
    if minInt64 ≤ i ∧ i ≤ maxInt64 then i else minInt64
  | _ => minInt64

/-- Go conversion `float64(i)` (exact: it is only applied to results of `toInt`). -/
def ofInt (i : Int) : Float64 := finite i 0

/-- Go `a == b` on float64: NaN equals nothing, finite values compare by value. -/
def eq : Float64 → Float64 → Bool
  | finite m₁ e₁, finite m₂ e₂ =>
    let e := min e₁ e₂
    decide (m₁ * 2 ^ (e₁ - e).toNat = m₂ * 2 ^ (e₂ - e).toNat)
  | inf a, inf b => a == b
  | _, _ => false

/-- Go `f < 0`. -/
def ltZero : Float64 → Bool
  | finite m _ => decide (m < 0)
  | inf neg => neg
  | nan => false

/-- The rational number a finite float64 denotes. -/
def value? : Float64 → Option ℚ
  | finite m e => some ((m : ℚ) * (2 : ℚ) ^ e)
  | _ => none

end Float64

/-! ## Dynamic values -/

/-- An `interface{}` value. `other encodable` stands for a value of a dynamic type outside the
JSON shapes (an `int`, a struct, a channel, ...); the flag records whether `json.Marshal`
accepts it. -/
inductive Value where
  | null
  | bool (b : Bool)
  | number (f : Float64)
  | str (s : String)
  | array (xs : List Value)
  | dict (fields : List (String × Value))
  | other (encodable : Bool)

/-- A `map[string]interface{}`. -/
abbrev Dict := List (String × Value)

/-- Go `v, ok := m[key]`. -/
def Dict.get? (m : Dict) (key : String) : Option Value := List.lookup key m

mutual
/-- Whether `json.Marshal(v)` returns a nil error: NaN, infinities and unsupported types are
rejected, containers are encoded element by element. -/
def jsonMarshalOk : Value → Bool
  | .null => true
  | .bool _ => true
  | .number (.finite _ _) => true
  | .number _ => false
  | .str _ => true
  | .array xs => jsonMarshalOkList xs
  | .dict fields => jsonMarshalOkFields fields
  | .other encodable => encodable
/-- All elements of a slice can be marshalled. -/
def jsonMarshalOkList : List Value → Bool
  | [] => true
  | v :: vs => jsonMarshalOk v && jsonMarshalOkList vs
/-- All values of a map can be marshalled. -/
def jsonMarshalOkFields : List (String × Value) → Bool
  | [] => true
  | (_, v) :: fields => jsonMarshalOk v && jsonMarshalOkFields fields
end

/-! ## `strconv.Atoi` -/

/-- Value of a non-empty string of ASCII digits, most significant first. -/
def parseDigits (cs : List Char) : Option Nat :=
  if cs ≠ [] ∧ cs.all Char.isDigit then
    some (cs.foldl (fun acc c => 10 * acc + (c.toNat - '0'.toNat)) 0)
  else none

/-- Go `strconv.Atoi`: an optional sign followed by decimal digits, within the `int` range. -/
def Atoi (s : String) : Except String Int :=
  let cs := s.toList
  let signed : Bool × List Char :=
    match cs with
    | '-' :: rest => (true, rest)
    | '+' :: rest => (false, rest)
    | _ => (false, cs)
  match parseDigits signed.2 with
  | none => .error "strconv.Atoi: invalid syntax"
  | some n =>
    let v : Int := if signed.1 then -(n : Int) else (n : Int)
    if minInt64 ≤ v ∧ v ≤ maxInt64 then .ok v else .error "strconv.Atoi: value out of range"

/-! ## `time` -/

/-! A Go `time.Duration` is a count of nanoseconds, here an `Int`. -/

/-- Go `time.Second`. -/
def Second : Int := 1000000000

/-- Go `time.Minute`. -/
def Minute : Int := 60 * Second

/-- Go `time.Hour`. -/
def Hour : Int := 60 * Minute

/-- Seconds from the zero time (January 1, year 1, 00:00:00 UTC) to the Unix epoch
(`unixToInternal` in package `time`). -/
def unixToInternal : Int := 62135596800

/-- Go `time.Time`: an absolute instant, `abs` nanoseconds after the zero time, presented in
location `loc`. The monotonic clock reading is not represented and the instant is not bounded. -/
structure Time where
  abs : Int
  loc : String
deriving DecidableEq, Repr

namespace Time

/-- Go `t.Add(d)`. -/
def Add (t : Time) (d : Int) : Time := { t with abs := t.abs + d }

/-- Go `t.Truncate(d)`: "the result of rounding t down to a multiple of d (since the zero
time). If d <= 0, Truncate returns t ... unchanged. Truncate operates on the time as an
absolute duration since the zero time". -/
def Truncate (t : Time) (d : Int) : Time :=
  if d ≤ 0 then t else t.Add (-(t.abs % d))

/-- Go `t.Unix()`: whole seconds elapsed since the Unix epoch (rounded down). -/
def Unix (t : Time) : Int := t.abs / Second - unixToInternal

/-- Go `t.UnixNano()`: nanoseconds elapsed since the Unix epoch. -/
def UnixNano (t : Time) : Int := t.abs - unixToInternal * Second

/-- Go `t.Sub(u)`: the duration `t - u`, saturating at the int64 range. -/
def Sub (t u : Time) : Int :=
  let d := t.abs - u.abs
  if d < minInt64 then minInt64 else if maxInt64 < d then maxInt64 else d

end Time

/-! ## rate.go -/

/-- Go `UnitTypeRequests = iota`. -/
def UnitTypeRequests : Int := 0

/-- Go `UnitTypeMegabits = iota`. -/
def UnitTypeMegabits : Int := 1

/-- Go `UnitTypeMegabytes = iota`. -/
def UnitTypeMegabytes : Int := 2

/-- Go `type Rate struct`. -/
structure Rate where
  Requests : Int
  Period : Int
  UnitType : Int
deriving DecidableEq, Repr

/-- Go `NewRate`. -/
def NewRate (requests : Int) (period : Int) (unitType : Int) : Except String Rate :=
  if requests ≤ 0 then
    .error "increment should be > 0"
  else if unitType ≠ UnitTypeRequests ∨ unitType ≠ UnitTypeMegabytes
      ∨ unitType ≠ UnitTypeMegabits then
    .error "Unsupported unit type"
  else if period < Second ∨ period > 24 * Hour then
    .error "Period should be within [1 second, 24 hours]"
  else
    .ok { Requests := requests, Period := period, UnitType := unitType }

namespace Rate

/-- Go `(r *Rate) CurrentBucket`. -/
def CurrentBucket (r : Rate) (t : Time) : Time := t.Truncate r.Period

/-- Go `(r *Rate) NextBucket`. -/
def NextBucket (r : Rate) (t : Time) : Time := r.CurrentBucket (t.Add r.Period)

/-- Go `(r *Rate) RetrySeconds`. -/
def RetrySeconds (r : Rate) (now : Time) : Int := (r.NextBucket now).Unix - now.Unix

/-- Go `(r *Rate) PeriodSeconds`: the int64 product wraps around, the division truncates. -/
def PeriodSeconds (r : Rate) : Int := Int.tdiv (wrapInt64 (r.Requests * r.Period)) Second

end Rate

/-- Go `UnitTypeFromString`. -/
def UnitTypeFromString (u : String) : Except String Int :=
  if u = "Mb" then .ok UnitTypeMegabits
  else if u = "MB" then .ok UnitTypeMegabytes
  else if u = "req" ∨ u = "reqs" ∨ u = "requests" ∨ u = "request" then .ok UnitTypeRequests
  else .error "Unsupported unit"

/-- Go `PeriodFromString`. -/
def PeriodFromString (u : String) : Except String Int :=
  if u = "second" then .ok Second
  else if u = "minute" then .ok Minute
  else if u = "hour" then .ok Hour
  else .error ("Unsupported period: " ++ u)

/-! ### The rate shorthand pattern -/

/-- Alternatives of the `unit` group, in the order of the pattern. -/
def unitWords : List String := ["req", "reqs", "request", "requests", "MB", "Mb"]

/-- Alternatives of the `period` group, in the order of the pattern. -/
def periodWords : List String := ["second", "minute", "hour"]

/-- Match the literal `lit` at the front of `s`, returning what follows it. -/
def matchLit (lit : String) (s : List Char) : Option (List Char) :=
  if lit.toList.isPrefixOf s then some (s.drop lit.toList.length) else none

/-- Backtracking alternation: the first word of `words`, in order, that starts `s` and after
which the rest of the pattern `k` matches. -/
def matchAlt {α : Type} : List String → List Char → (String → List Char → Option α) → Option α
  | [], _, _ => none
  | w :: ws, s, k =>
    match matchLit w s with
    | none => matchAlt ws s k
    | some rest =>
      match k w rest with
      | some r => some r
      | none => matchAlt ws s k

/-- The part `/(?P<period>(second|minute|hour))` of the pattern, after a unit `unit` was read. -/
def matchSlashPeriod (unit : String) (s : List Char) : Option (String × String) :=
  match s with
  | '/' :: rest => matchAlt periodWords rest (fun p _ => some (unit, p))
  | _ => none

/-- The pattern
`(?P<requests>\d+) (?P<unit>(req|reqs|request|requests|MB|Mb))?/(?P<period>(second|minute|hour))`
matched at the front of `s`. The result lists the submatches as `FindStringSubmatch` does:
index 0 the whole match, 1 `requests`, 2 `unit`, 3 the group nested in `unit`, 4 `period`,
5 the group nested in `period`; a group that took no part is the empty string.
`\d+` is greedy and has to be followed by a blank, so it takes the whole run of digits. -/
def rateReMatchHere (s : List Char) : Option (List String) :=
  let digits := s.takeWhile Char.isDigit
  if digits = [] then none
  else
    match s.dropWhile Char.isDigit with
    | ' ' :: rest =>
      let found :=
        match matchAlt unitWords rest matchSlashPeriod with
        | some r => some r
        | none => matchSlashPeriod "" rest
      found.map fun up =>
        [String.mk digits ++ " " ++ up.1 ++ "/" ++ up.2, String.mk digits, up.1, up.1, up.2, up.2]
    | _ => none

/-- Go `rateRe.FindStringSubmatch`: the pattern is not anchored, the leftmost match wins. -/
def rateReFindStringSubmatch : List Char → Option (List String)
  | [] => none
  | c :: cs =>
    match rateReMatchHere (c :: cs) with
    | some values => some values
    | none => rateReFindStringSubmatch cs

/-- Go type assertion `v.(float64)`. -/
def Value.asFloat64? : Value → Option Float64
  | .number f => some f
  | _ => none

/-- Go type assertion `v.(string)`. -/
def Value.asString? : Value → Option String
  | .str s => some s
  | _ => none

/-- Go type assertion `v.([]interface{})`. -/
def Value.asArray? : Value → Option (List Value)
  | .array xs => some xs
  | _ => none

/-- Go type assertion `v.(map[string]interface{})`. -/
def Value.asDict? : Value → Option Dict
  | .dict fields => some fields
  | _ => none

/-- Go `NewRateFromString`. -/
def NewRateFromString (inp : String) : Except String Rate :=
  match rateReFindStringSubmatch inp.toList with
  | none => .error "Unsupported rate format"
  | some values =>
    match Atoi (values.getD 1 "") with
    | .error _ => .error "Rate requests should be integer"
    | .ok requests =>
      match UnitTypeFromString (values.getD 2 "") with
      | .error err => .error err
      | .ok unit =>
        match PeriodFromString (values.getD 3 "") with
        | .error err => .error err
        | .ok period => NewRate requests period unit

/-- Go `NewRateFromDict`. -/
def NewRateFromDict (inp : Dict) : Except String Rate :=
  match inp.get? "requests" with
  | none => .error "Expected requests in rate"
  | some requestsI =>
    match requestsI.asFloat64? with
    | none => .error "Requests should be an integer"
    | some requests =>
      if !(requests.eq (Float64.ofInt requests.toInt)) then
        .error "Requests should be an integer"
      else
        match inp.get? "period" with
        | none => .error "Expected period"
        | some periodI =>
          match periodI.asString? with
          | none => .error "Period should be a string"
          | some periodS =>
            match PeriodFromString periodS with
            | .error err => .error err
            | .ok period =>
              match inp.get? "unit" with
              | none => NewRate requests.toInt period UnitTypeRequests
              | some unitI =>
                match unitI.asString? with
                | none => .error "Unit should be a string"
                | some unitS =>
                  match UnitTypeFromString unitS with
                  | .error err => .error err
                  | .ok unitType => NewRate requests.toInt period unitType

/-- Go `NewRateFromObj`. -/
def NewRateFromObj (inp : Value) : Except String Rate :=
  match inp with
  | .str val => NewRateFromString val
  | .dict val => NewRateFromDict val
  | _ => .error "Rate string or dict required"

/-! ## headers.go -/

/-- Go `http.Header` (`map[string][]string`): an association list with one entry per key.
A nil header and an empty header are both the empty list. -/
abbrev Header := List (String × List String)

namespace Header

/-- Go `h[key]`: the values stored under `key`, none when the key is absent. -/
def get : Header → String → List String
  | [], _ => []
  | (k, vs) :: rest, key => if k = key then vs else get rest key

/-- Go `h[key] = append(h[key], value)`. -/
def append : Header → String → String → Header
  | [], key, value => [(key, [value])]
  | (k, vs) :: rest, key, value =>
    if k = key then (k, vs ++ [value]) :: rest else (k, vs) :: append rest key value

end Header

/-- Modelled from the spec: the opaque failover policy handle attached to a Forward; its
declaration (type `Failover`) is not among the sources. -/
structure Failover where
  handle : Nat
deriving DecidableEq, Repr

/-- Modelled from the spec: the opaque identity handle used to key quota tracking; its
declaration (type `Token`) is not among the sources. -/
structure Token where
  handle : Nat
deriving DecidableEq, Repr

/-- The fields of Go `net/url.URL` that the package reads. -/
structure URL where
  Scheme : String
  Host : String
  Path : String
deriving DecidableEq, Repr

/-- Functions the package calls whose code is not among the sources; every definition below
takes them as a parameter and every theorem holds for all of them.

* `canonicalKey` is `textproto.CanonicalMIMEHeaderKey`, applied by `http.Header.Add` to the key;
* `ParseUrl` is `netutils.ParseUrl` (a nil `*url.URL` is `none`);
* `NewFailoverFromObj` is the failover parser of the package (a nil `*Failover` is `none`). -/
structure Externals where
  canonicalKey : String → String
  ParseUrl : String → Except String (Option URL)
  NewFailoverFromObj : Value → Except String (Option Failover)

/-- Go `headers.Add(key, value)`. -/
def Header.Add (x : Externals) (h : Header) (key value : String) : Header :=
  h.append (x.canonicalKey key) value

/-- The inner loop of `HeadersFromObj` over the elements of a sequence value. -/
def addHeaderValues (x : Externals) (headers : Header) (key : String) :
    List Value → Except String Header
  | [] => .ok headers
  | valueI :: rest =>
    match valueI.asString? with
    | none => .error "Header value should be a string got unknown type: %#v in %v"
    | some value => addHeaderValues x (headers.Add x key value) key rest

/-- The outer loop of `HeadersFromObj` over the entries of the map. -/
def addHeaderEntries (x : Externals) (headers : Header) : Dict → Except String Header
  | [] => .ok headers
  | (key, inHeader) :: rest =>
    match inHeader with
    | .str values => addHeaderEntries x (headers.Add x key values) rest
    | .array values =>
      match addHeaderValues x headers key values with
      | .error err => .error err
      | .ok headers' => addHeaderEntries x headers' rest
    | _ => .error "Unsupported header type: %T in %#v"

/-- Go `HeadersFromObj`. -/
def HeadersFromObj (x : Externals) (inp : Value) : Except String Header :=
  match inp.asDict? with
  | none => .error "Headers should be a dictionary"
  | some inHeaders => addHeaderEntries x [] inHeaders

/-- Go `AddRemoveHeadersFromDict`. In both `if exists` blocks the statement
`addHeaders, err := HeadersFromObj(...)` declares new variables local to the block, so the
outer `addHeaders` / `removeHeaders` keep their zero value (a nil header); the final
`return addHeaders, removeHeaders` is read as returning a nil error. -/
def AddRemoveHeadersFromDict (x : Externals) (inp : Dict) : Except String (Header × Header) :=
  let addHeaders : Header := []
  let afterAdd : Except String Unit :=
    match inp.get? "add-headers" with
    | none => .ok ()
    | some addHeadersI =>
      match HeadersFromObj x addHeadersI with
      | .error err => .error err
      | .ok _ => .ok ()
  match afterAdd with
  | .error err => .error err
  | .ok _ =>
    let removeHeaders : Header := []
    match inp.get? "remove-headers" with
    | none => .ok (addHeaders, removeHeaders)
    | some removeHeadersI =>
      match HeadersFromObj x removeHeadersI with
      | .error err => .error err
      | .ok _ => .ok (addHeaders, removeHeaders)

/-! ## upstream.go -/

/-- Go `type Upstream struct`. -/
structure Upstream where
  Scheme : String
  Host : String
  Port : Int
  RewritePath : String
  AddHeaders : Header
  RemoveHeaders : Header
deriving DecidableEq, Repr

/-- Go `NewUpstream`. -/
def NewUpstream (scheme host : String) (port : Int) (rewritePath : String)
    (addHeaders removeHeaders : Header) : Except String Upstream :=
  if scheme.utf8ByteSize = 0 then
    .error "Expected scheme"
  else if scheme ≠ "http" ∧ scheme ≠ "https" then
    .error ("Unsupported scheme: " ++ scheme)
  else
    .ok { Scheme := scheme, Host := host, Port := port, RewritePath := rewritePath,
          AddHeaders := addHeaders, RemoveHeaders := removeHeaders }

/-- Go `strings.SplitN(s, ":", 2)`: the text before the first colon and the text after it, or
`s` alone when it has no colon. -/
def splitFirstColon (s : String) : List String :=
  match s.toList.dropWhile (fun c => c ≠ ':') with
  | [] => [s]
  | _ :: after => [String.mk (s.toList.takeWhile (fun c => c ≠ ':')), String.mk after]

/-- Go `NewUpstreamFromUrl`; a nil `*url.URL` is `none`. -/
def NewUpstreamFromUrl (url : Option URL) : Except String Upstream :=
  match url with
  | none => .error "Someone provided nil url. How dare you?"
  | some url =>
    let values := splitFirstColon url.Host
    if values.length ≠ 2 then
      .error "Expected host and port in %s"
    else
      let host := values.getD 0 ""
      match Atoi (values.getD 1 "") with
      | .error _ => .error "Expected numeric port in %s"
      | .ok port => NewUpstream url.Scheme host port url.Path [] []

/-- Go `NewUpstreamFromDict`. -/
def NewUpstreamFromDict (x : Externals) (inp : Dict) : Except String Upstream :=
  match inp.get? "scheme" with
  | none => .error "Expected scheme"
  | some schemeI =>
    match schemeI.asString? with
    | none => .error "Scheme should be a string"
    | some scheme =>
      match inp.get? "host" with
      | none => .error "Expected host"
      | some hostI =>
        match hostI.asString? with
        | none => .error "Host should be a string"
        | some host =>
          match inp.get? "port" with
          | none => .error "Expected port"
          | some portI =>
            match portI.asFloat64? with
            | none => .error "Port should be an integer"
            | some port =>
              if !(port.eq (Float64.ofInt port.toInt)) then
                .error "Port should be an integer"
              else
                let rewritePath : Except String String :=
                  match inp.get? "rewrite-path" with
                  | none => .ok ""
                  | some pathI =>
                    match pathI.asString? with
                    | none => .error "Rewrite-path should be a string"
                    | some path => .ok path
                match rewritePath with
                | .error err => .error err
                | .ok rewritePath =>
                  match AddRemoveHeadersFromDict x inp with
                  | .error err => .error err
                  | .ok (addHeaders, removeHeaders) =>
                    NewUpstream scheme host port.toInt rewritePath addHeaders removeHeaders

/-- Go `NewUpstreamFromString`. -/
def NewUpstreamFromString (x : Externals) (inp : String) : Except String Upstream :=
  match x.ParseUrl inp with
  | .error err => .error err
  | .ok parsedUrl => NewUpstreamFromUrl parsedUrl

/-- Go `NewUpstreamFromObj`. -/
def NewUpstreamFromObj (x : Externals) (inp : Value) : Except String Upstream :=
  match inp with
  | .dict val => NewUpstreamFromDict x val
  | .str val => NewUpstreamFromString x val
  | _ => .error "Unsupported type %T"

/-! ## instructions.go -/

/-- Go `type Reply struct`. -/
structure Reply where
  Code : Int
  Message : Value

/-- Go `type Forward struct`; a nil `*Failover` is `none`, a nil slice is the empty list. -/
structure Forward where
  Failover : Option Failover
  Tokens : List Token
  Upstreams : List Upstream
  AddHeaders : Header
  RemoveHeaders : Header
deriving DecidableEq, Repr

/-- The `interface{}` result of the resolver: a `*Reply` or a `*Forward`. -/
inductive Command where
  | reply (r : Reply)
  | forward (f : Forward)

/-- Go `NewForward`. -/
def NewForward (failover : Option Failover) (tokens : List Token) (upstreams : List Upstream)
    (addHeaders removeHeaders : Header) : Except String Forward :=
  if upstreams.length ≤ 0 then
    .error "At least one upstream is required"
  else
    .ok { Failover := failover, Tokens := tokens, Upstreams := upstreams,
          AddHeaders := addHeaders, RemoveHeaders := removeHeaders }

/-- Go `NewReplyFromDict`. -/
def NewReplyFromDict (inp : Dict) : Except String Command :=
  match inp.get? "code" with
  | none => .error "Expected code"
  | some codeI =>
    match codeI.asFloat64? with
    | none => .error "Proper HTTP code is required"
    | some codeF =>
      if !(codeF.eq (Float64.ofInt codeF.toInt)) || codeF.ltZero then
        .error "Proper HTTP code is required"
      else
        match inp.get? "message" with
        | none => .error "Expected message"
        | some messageI =>
          if !(jsonMarshalOk messageI) then
            .error "Message property should be json encodeable"
          else
            .ok (.reply { Code := codeF.toInt, Message := messageI })

/-- The loop of `NewForwardFromDict` that fills `upstreams`: elements are converted in order
and the first error is returned. -/
def upstreamsFromObjs (x : Externals) : List Value → Except String (List Upstream)
  | [] => .ok []
  | upstreamI :: rest =>
    match NewUpstreamFromObj x upstreamI with
    | .error err => .error err
    | .ok u =>
      match upstreamsFromObjs x rest with
      | .error err => .error err
      | .ok us => .ok (u :: us)

/-- Go `NewForwardFromDict`. The struct literal sets no `Tokens`. -/
def NewForwardFromDict (x : Externals) (inp : Dict) : Except String Command :=
  match inp.get? "upstreams" with
  | none => .error "Upstreams are required"
  | some upstreamsI =>
    match upstreamsI.asArray? with
    | none => .error "Upstreams: expected array, got %T"
    | some upstreamsS =>
      if upstreamsS.length = 0 then
        .error "Upstreams: at least one is required"
      else
        match upstreamsFromObjs x upstreamsS with
        | .error err => .error err
        | .ok upstreams =>
          let failover : Except String (Option Failover) :=
            match inp.get? "failover" with
            | none => .ok none
            | some failoverI => x.NewFailoverFromObj failoverI
          match failover with
          | .error err => .error err
          | .ok failover =>
            match AddRemoveHeadersFromDict x inp with
            | .error err => .error err
            | .ok (addHeaders, removeHeaders) =>
              .ok (.forward { Failover := failover, Tokens := [], Upstreams := upstreams,
                              AddHeaders := addHeaders, RemoveHeaders := removeHeaders })

/-- Go `NewCommandFromObj`. -/
def NewCommandFromObj (x : Externals) (inp : Value) : Except String Command :=
  match inp.asDict? with
  | none => .error "Expected dictionary, got %T"
  | some obj =>
    match obj.get? "code" with
    | some _ => NewReplyFromDict obj
    | none => NewForwardFromDict x obj

/-! ## Inputs of the worked examples -/

/-- A rate of one request per seven seconds (a period NewRate's range admits). -/
def sevenSecondRate : Rate := { Requests := 1, Period := 7 * Second, UnitType := UnitTypeRequests }

/-- The Unix epoch, 1970-01-01T00:00:00Z. -/
def unixEpoch : Time := { abs := unixToInternal * Second, loc := "UTC" }

/-- Collaborators used by the worked examples: the header key is kept as written (the keys of
the examples are already canonical), no URL string and no failover object is accepted. -/
def exampleExternals : Externals :=
  { canonicalKey := fun key => key
    ParseUrl := fun _ => .error "invalid url"
    NewFailoverFromObj := fun _ => .error "invalid failover" }

/-- The float64 with the integral value `n`. -/
def num (n : Int) : Value := .number (.finite n 0)

/-- The policy response `{"code":404,"message":"not found"}`. -/
def replyObj : Dict := [("code", num 404), ("message", .str "not found")]

/-- The upstream `{"scheme":"http","host":"h","port":80}`. -/
def upstreamObj : Dict := [("scheme", .str "http"), ("host", .str "h"), ("port", num 80)]

/-- The policy response `{"upstreams":[{"scheme":"http","host":"h","port":80}]}`. -/
def forwardObj : Dict := [("upstreams", .array [.dict upstreamObj])]

/-- The rate `{"requests":100,"period":"minute","unit":"req"}`. -/
def rateObj : Dict := [("requests", num 100), ("period", .str "minute"), ("unit", .str "req")]

/-- A rate with a period of one and a half seconds (a period NewRate's range admits). -/
def fractionalRate : Rate :=
  { Requests := 1, Period := 1500000000, UnitType := UnitTypeRequests }

/-- The instant one and a half seconds after the zero time. -/
def fractionalBoundary : Time := { abs := 1500000000, loc := "UTC" }

/-- A rate of 9223372037 requests per second: the product with the period exceeds int64. -/
def overflowRate : Rate :=
  { Requests := 9223372037, Period := Second, UnitType := UnitTypeRequests }

/-- The upstream `{"scheme":"http","host":"h","port":1267650600228229401496703205376}`, whose
port is the float64 `2 ^ 100`. -/
def hugePortObj : Dict :=
  [("scheme", .str "http"), ("host", .str "h"), ("port", .number (.finite 1 100))]

/-! ## Specification-side definitions -/

/-- Spec side: the elements of a sequence when all of them are strings. -/
def allStrings? : List Value → Option (List String)
  | [] => some []
  | v :: vs =>
    match v.asString?, allStrings? vs with
    | some s, some ss => some (s :: ss)
    | _, _ => none

/-- Spec side: the values a header entry stands for: `[s]` for a string `s`, the elements in
order for a sequence of strings, nothing for any other value. -/
def headerValues? : Value → Option (List String)
  | .str s => some [s]
  | .array xs => allStrings? xs
  | _ => none

/-- Spec side: the values that the entries of `fields` with canonical key `k` contribute, in the
order of the entries. -/
def collectValues (x : Externals) (k : String) : Dict → List String
  | [] => []
  | (key, v) :: rest =>
    (if x.canonicalKey key = k then (headerValues? v).getD [] else []) ++ collectValues x k rest


/-! ## Theorems: bucket arithmetic -/

/-- One second is a positive duration. -/
theorem second_pos : (0 : Int) < Second := by decide

/-- The instant of a truncation to a positive duration. -/
theorem Time.truncate_abs (t : Time) (d : Int) (hd : 0 < d) :
    (t.Truncate d).abs = t.abs - t.abs % d := by
  have hnot : ¬ d ≤ 0 := not_le.mpr hd
  simp only [Time.Truncate, if_neg hnot, Time.Add]
  ring

/-- The instant of the current bucket for a positive period. -/
theorem Rate.currentBucket_abs (r : Rate) (t : Time) (hp : 0 < r.Period) :
    (r.CurrentBucket t).abs = t.abs - t.abs % r.Period :=
  Time.truncate_abs t r.Period hp

/-- The instant of the next bucket for a positive period. -/
theorem Rate.nextBucket_abs (r : Rate) (t : Time) (hp : 0 < r.Period) :
    (r.NextBucket t).abs = t.abs + r.Period - t.abs % r.Period := by
  have h := Time.truncate_abs (t.Add r.Period) r.Period hp
  simp only [Time.Add] at h
  rw [Int.add_emod_self] at h
  exact h

/-- C1: for a Rate with requests > 0 and 1s <= period <= 24h and any instant t, the current
bucket starts at or before t, the next bucket starts after t, the two starts are exactly one
period apart, and NextBucket(t) is CurrentBucket(t + period). -/
theorem Rate.bucket_bounds (r : Rate) (t : Time) (_hreq : 0 < r.Requests)
    (hlo : Second ≤ r.Period) (hhi : r.Period ≤ 24 * Hour) :
    (r.CurrentBucket t).abs ≤ t.abs ∧ t.abs < (r.NextBucket t).abs ∧
      (r.NextBucket t).Sub (r.CurrentBucket t) = r.Period ∧
      r.NextBucket t = r.CurrentBucket (t.Add r.Period) := by
  have hp : 0 < r.Period := lt_of_lt_of_le second_pos hlo
  have h0 : 0 ≤ t.abs % r.Period := Int.emod_nonneg _ (ne_of_gt hp)
  have h1 : t.abs % r.Period < r.Period := Int.emod_lt_of_pos _ hp
  have hc := Rate.currentBucket_abs r t hp
  have hn := Rate.nextBucket_abs r t hp
  have hhi' : r.Period ≤ 86400000000000 := by
    have : (24 * Hour : Int) = 86400000000000 := by decide
    omega
  refine ⟨by omega, by omega, ?_, rfl⟩
  have hd : (r.NextBucket t).abs - (r.CurrentBucket t).abs = r.Period := by omega
  simp only [Time.Sub, hd, minInt64, maxInt64]
  have hs : (Second : Int) = 1000000000 := rfl
  rw [if_neg (by omega), if_neg (by omega)]

/-- Witness for C1: five requests per second, one and a half seconds after the zero time. -/
theorem Rate.bucket_bounds_witness :
    (0 : Int) < 5 ∧ Second ≤ Second ∧ Second ≤ 24 * Hour ∧
      ((Rate.mk 5 Second UnitTypeRequests).CurrentBucket ⟨1500000000, "UTC"⟩).abs ≤ 1500000000 ∧
      (1500000000 : Int) <
        ((Rate.mk 5 Second UnitTypeRequests).NextBucket ⟨1500000000, "UTC"⟩).abs :=
  have h := Rate.bucket_bounds (Rate.mk 5 Second UnitTypeRequests) ⟨1500000000, "UTC"⟩
    (by decide) (by decide) (by decide)
  ⟨by decide, by decide, by decide, h.1, h.2.1⟩

/-- C2 (counterexample): with a period of seven seconds the bucket of the Unix epoch starts four
seconds before the epoch, so its offset from the Unix epoch is not a multiple of the period,
it is not `t - (t's epoch offset mod period)`, and the epoch itself is a later instant `<= t`
whose epoch offset is a multiple of the period. -/
theorem Rate.currentBucket_unix_counterexample :
    Second ≤ sevenSecondRate.Period ∧ sevenSecondRate.Period ≤ 24 * Hour ∧
      (sevenSecondRate.CurrentBucket unixEpoch).UnixNano = -4 * Second ∧
      ¬ (sevenSecondRate.Period ∣ (sevenSecondRate.CurrentBucket unixEpoch).UnixNano) ∧
      (sevenSecondRate.CurrentBucket unixEpoch).abs ≠
        unixEpoch.abs - unixEpoch.UnixNano % sevenSecondRate.Period ∧
      ¬ (∀ u : Time, u.abs ≤ unixEpoch.abs → sevenSecondRate.Period ∣ u.UnixNano →
          u.abs ≤ (sevenSecondRate.CurrentBucket unixEpoch).abs) := by
  refine ⟨by decide, by decide, by decide, by decide, by decide, ?_⟩
  intro h
  have := h unixEpoch (le_refl _) (by decide)
  revert this
  decide

/-- C2 (amended): for 1s <= period <= 24h, CurrentBucket(t) keeps the location of t and is
`t - (t's offset from the zero time mod period)`, the greatest instant `<= t` whose offset from
Go's zero time (0001-01-01T00:00:00Z) is a multiple of the period; whenever the period divides
the 62135596800 seconds between the zero time and the Unix epoch (as every period dividing 24h
does) this is also `t - (t's Unix-epoch offset mod period)`, the greatest instant `<= t` whose
Unix-epoch offset is a multiple of the period. -/
theorem Rate.currentBucket_greatest_multiple (r : Rate) (t : Time)
    (hlo : Second ≤ r.Period) (_hhi : r.Period ≤ 24 * Hour) :
    (r.CurrentBucket t).loc = t.loc ∧
      (r.CurrentBucket t).abs = t.abs - t.abs % r.Period ∧
      r.Period ∣ (r.CurrentBucket t).abs ∧
      (r.CurrentBucket t).abs ≤ t.abs ∧
      (∀ u : Time, u.abs ≤ t.abs → r.Period ∣ u.abs → u.abs ≤ (r.CurrentBucket t).abs) ∧
      (r.Period ∣ unixToInternal * Second →
        (r.CurrentBucket t).abs = t.abs - t.UnixNano % r.Period ∧
        r.Period ∣ (r.CurrentBucket t).UnixNano ∧
        (∀ u : Time, u.abs ≤ t.abs → r.Period ∣ u.UnixNano →
          u.abs ≤ (r.CurrentBucket t).abs)) := by
  have hp : 0 < r.Period := lt_of_lt_of_le second_pos hlo
  have hc := Rate.currentBucket_abs r t hp
  have h0 : 0 ≤ t.abs % r.Period := Int.emod_nonneg _ (ne_of_gt hp)
  have h1 : t.abs % r.Period < r.Period := Int.emod_lt_of_pos _ hp
  have hdvd : r.Period ∣ (r.CurrentBucket t).abs := by
    rw [hc]; exact Int.dvd_sub_of_emod_eq rfl
  have hmax : ∀ u : Time, u.abs ≤ t.abs → r.Period ∣ u.abs →
      u.abs ≤ (r.CurrentBucket t).abs := by
    intro u hu hdu
    obtain ⟨a, ha⟩ := hdu
    obtain ⟨b, hb⟩ := hdvd
    by_contra hlt
    have hlt' : (r.CurrentBucket t).abs < u.abs := not_le.mp hlt
    rw [ha, hb] at hlt'
    have hba : b < a := lt_of_mul_lt_mul_left hlt' (le_of_lt hp)
    have hstep : r.Period * (b + 1) ≤ r.Period * a :=
      mul_le_mul_of_nonneg_left (by omega) (le_of_lt hp)
    rw [mul_add, mul_one, ← hb, ← ha] at hstep
    omega
  refine ⟨?_, hc, hdvd, by omega, hmax, ?_⟩
  · have hnot : ¬ r.Period ≤ 0 := not_le.mpr hp
    simp [Rate.CurrentBucket, Time.Truncate, hnot, Time.Add]
  · intro hdiv
    have hmod : t.UnixNano % r.Period = t.abs % r.Period := by
      unfold Time.UnixNano
      obtain ⟨k, hk⟩ := hdiv
      rw [hk, sub_eq_add_neg, ← mul_neg, Int.add_mul_emod_self_left]
    have hun : (r.CurrentBucket t).UnixNano = t.UnixNano - t.UnixNano % r.Period := by
      unfold Time.UnixNano at hmod ⊢
      omega
    refine ⟨by omega, ?_, ?_⟩
    · rw [hun]; exact Int.dvd_sub_of_emod_eq rfl
    · intro u hu hdu
      apply hmax u hu
      have : u.abs = u.UnixNano + unixToInternal * Second := by unfold Time.UnixNano; ring
      rw [this]
      exact dvd_add hdu hdiv

/-- Witness for C2 (amended): a hundred requests per minute, 90.5 seconds after the zero time. -/
theorem Rate.currentBucket_greatest_multiple_witness :
    Second ≤ Minute ∧ Minute ≤ 24 * Hour ∧ Minute ∣ unixToInternal * Second ∧
      ((Rate.mk 100 Minute UnitTypeRequests).CurrentBucket ⟨90500000000, "Local"⟩).abs =
        90500000000 - 90500000000 % Minute ∧
      Minute ∣ ((Rate.mk 100 Minute UnitTypeRequests).CurrentBucket ⟨90500000000, "Local"⟩).UnixNano :=
  have h := Rate.currentBucket_greatest_multiple (Rate.mk 100 Minute UnitTypeRequests)
    ⟨90500000000, "Local"⟩ (by decide) (by decide)
  ⟨by decide, by decide, by decide, h.2.1, (h.2.2.2.2.2 (by decide)).2.1⟩

/-! ## Rate construction -/

/-- C3: NewRate is claimed to return the Rate for requests > 0, 1s <= period <= 24h and a
known unit type; at `NewRate(1, time.Second, UnitTypeRequests)` the code returns the error of
the unit-type guard instead, because the guard joins its three inequalities with `||`. -/
theorem NewRate_rejects_valid_input :
    NewRate 1 Second UnitTypeRequests = .error "Unsupported unit type" ∧
      NewRate 100 Minute UnitTypeMegabytes = .error "Unsupported unit type" ∧
      NewRate 5 Hour UnitTypeMegabits = .error "Unsupported unit type" :=
  ⟨rfl, rfl, rfl⟩

/-- C4: the shorthand `"100 req/minute"` and the map `{requests:100, period:"minute",
unit:"req"}` are claimed to give equal Rates; the code rejects both. The string form reads the
period from submatch 3, which is the group nested in `unit` (here `"req"`), and the map form
ends in the unit-type guard of NewRate. -/
theorem NewRateFromObj_shorthand_and_map_rejected :
    rateReFindStringSubmatch "100 req/minute".toList =
        some ["100 req/minute", "100", "req", "req", "minute", "minute"] ∧
      NewRateFromObj (.str "100 req/minute") = .error "Unsupported period: req" ∧
      NewRateFromObj (.dict rateObj) = .error "Unsupported unit type" :=
  ⟨rfl, rfl, rfl⟩

/-- C5: the shorthand without a unit is claimed to parse; `"5/second"` does not match the
pattern, which wants a blank after the digits, and `"5 /second"`, which matches, is rejected
because the empty unit submatch is no unit word. -/
theorem NewRateFromString_unit_omitted_rejected :
    NewRateFromString "5/second" = .error "Unsupported rate format" ∧
      rateReFindStringSubmatch "5 /second".toList =
        some ["5 /second", "5", "", "", "second", "second"] ∧
      NewRateFromString "5 /second" = .error "Unsupported unit" :=
  ⟨rfl, rfl, rfl⟩

/-! ## Directive resolution -/

/-- C6: NewCommandFromObj fails on every input that is not a string-keyed mapping; on a mapping
it returns the result of NewReplyFromDict when the key "code" is present, whatever its value,
and the result of NewForwardFromDict when it is absent; `{"code":404,"message":"not found"}`
resolves to a Reply with Code 404. -/
theorem NewCommandFromObj_dispatch (x : Externals) :
    (∀ v : Value, (∀ obj : Dict, v ≠ .dict obj) → ∃ err, NewCommandFromObj x v = .error err) ∧
      (∀ (obj : Dict) (code : Value), obj.get? "code" = some code →
        NewCommandFromObj x (.dict obj) = NewReplyFromDict obj) ∧
      (∀ obj : Dict, obj.get? "code" = none →
        NewCommandFromObj x (.dict obj) = NewForwardFromDict x obj) ∧
      NewCommandFromObj x (.dict replyObj) =
        .ok (.reply { Code := 404, Message := .str "not found" }) := by
  refine ⟨?_, ?_, ?_, rfl⟩
  · intro v hv
    cases v with
    | dict obj => exact absurd rfl (hv obj)
    | _ => exact ⟨_, rfl⟩
  · intro obj code hcode
    simp only [NewCommandFromObj, Value.asDict?, hcode]
  · intro obj hcode
    simp only [NewCommandFromObj, Value.asDict?, hcode]

/-- Witness for C6: a mapping whose "code" is not even a number takes the Reply path, and the
mapping `{"upstreams":[...]}` takes the Forward path. -/
theorem NewCommandFromObj_dispatch_witness :
    NewCommandFromObj exampleExternals (.dict [("code", .null)]) =
        NewReplyFromDict [("code", .null)] ∧
      NewCommandFromObj exampleExternals (.dict forwardObj) =
        NewForwardFromDict exampleExternals forwardObj ∧
      (∃ err, NewCommandFromObj exampleExternals (.str "code") = .error err) :=
  ⟨(NewCommandFromObj_dispatch exampleExternals).2.1 [("code", .null)] .null rfl,
   (NewCommandFromObj_dispatch exampleExternals).2.2.1 forwardObj rfl,
   (NewCommandFromObj_dispatch exampleExternals).1 (.str "code") (fun _ h => by cases h)⟩

/-- The upstream loop returns one Upstream per element. -/
theorem upstreamsFromObjs_length (x : Externals) :
    ∀ (objs : List Value) (us : List Upstream),
      upstreamsFromObjs x objs = .ok us → us.length = objs.length := by
  intro objs
  induction objs with
  | nil =>
    intro us h
    simp only [upstreamsFromObjs, Except.ok.injEq] at h
    subst h
    rfl
  | cons o rest ih =>
    intro us h
    simp only [upstreamsFromObjs] at h
    split at h
    · cases h
    · split at h
      · cases h
      · rename_i us' hrest
        simp only [Except.ok.injEq] at h
        subst h
        simp [ih us' hrest]

/-- C7: Forward construction with no upstream fails whatever the other fields are, in NewForward
and, for a map whose "upstreams" is an empty array, in NewForwardFromDict; so every Forward
either constructor returns has a non-empty Upstreams list. -/
theorem forward_requires_upstream (x : Externals) :
    (∀ (failover : Option Failover) (tokens : List Token) (upstreams : List Upstream)
        (addHeaders removeHeaders : Header), upstreams.length = 0 →
        NewForward failover tokens upstreams addHeaders removeHeaders =
          .error "At least one upstream is required") ∧
      (∀ inp : Dict, inp.get? "upstreams" = some (.array []) →
        NewForwardFromDict x inp = .error "Upstreams: at least one is required") ∧
      (∀ (failover : Option Failover) (tokens : List Token) (upstreams : List Upstream)
        (addHeaders removeHeaders : Header) (f : Forward),
        NewForward failover tokens upstreams addHeaders removeHeaders = .ok f →
          f.Upstreams ≠ []) ∧
      (∀ (inp : Dict) (f : Forward),
        NewForwardFromDict x inp = .ok (.forward f) → f.Upstreams ≠ []) := by
  refine ⟨?_, ?_, ?_, ?_⟩
  · intro failover tokens upstreams addHeaders removeHeaders hlen
    simp [NewForward, hlen]
  · intro inp hinp
    simp [NewForwardFromDict, hinp, Value.asArray?]
  · intro failover tokens upstreams addHeaders removeHeaders f h
    unfold NewForward at h
    split at h
    · cases h
    · rename_i hlen
      simp only [Except.ok.injEq] at h
      subst h
      intro hnil
      simp only at hnil
      simp [hnil] at hlen
  · intro inp f h
    unfold NewForwardFromDict at h
    split at h
    · cases h
    · split at h
      · cases h
      · rename_i upstreamsS _
        split at h
        · cases h
        · rename_i hlen
          split at h
          · cases h
          · rename_i upstreams hups
            have hl := upstreamsFromObjs_length x _ _ hups
            simp only at h
            split at h
            · cases h
            · split at h
              · cases h
              · simp only [Except.ok.injEq, Command.forward.injEq] at h
                subst h
                intro hnil
                simp only at hnil
                rw [hnil] at hl
                simp only [List.length_nil] at hl
                exact hlen hl.symm

/-- Witness for C7: an empty "upstreams" array next to other fields is rejected, and the
Forward built from one upstream has a non-empty Upstreams list. -/
theorem forward_requires_upstream_witness :
    NewForwardFromDict exampleExternals [("failover", .null), ("upstreams", .array [])] =
        .error "Upstreams: at least one is required" ∧
      NewForward (some ⟨1⟩) [⟨7⟩] [] [("X-A", ["1"])] [] =
        .error "At least one upstream is required" ∧
      (Forward.mk none [] [⟨"http", "h", 80, "", [], []⟩] [] []).Upstreams ≠ [] :=
  ⟨(forward_requires_upstream exampleExternals).2.1
      [("failover", .null), ("upstreams", .array [])] rfl,
   (forward_requires_upstream exampleExternals).1 (some ⟨1⟩) [⟨7⟩] [] [("X-A", ["1"])] [] rfl,
   (forward_requires_upstream exampleExternals).2.2.2 forwardObj
      (Forward.mk none [] [⟨"http", "h", 80, "", [], []⟩] [] []) rfl⟩

/-! ## Header parsing -/

/-- Reading a header after one value was appended. -/
theorem Header.get_append (h : Header) (k v k' : String) :
    (h.append k v).get k' = if k = k' then h.get k' ++ [v] else h.get k' := by
  induction h with
  | nil =>
    by_cases hk : k = k' <;> simp [Header.append, Header.get, hk]
  | cons e rest ih =>
    obtain ⟨k₀, vs⟩ := e
    by_cases h0 : k₀ = k
    · subst h0
      by_cases hk : k₀ = k' <;> simp [Header.append, Header.get, hk]
    · by_cases hk : k = k'
      · subst hk
        simp [Header.append, Header.get, h0, ih]
      · by_cases hk0 : k₀ = k'
        · subst hk0
          simp [Header.append, Header.get, h0, hk]
        · simp [Header.append, Header.get, h0, hk, hk0, ih]

/-- The inner loop succeeds on a sequence of strings and appends them in order. -/
theorem addHeaderValues_ok (x : Externals) (key : String) :
    ∀ (vs : List Value) (ss : List String) (h : Header), allStrings? vs = some ss →
      ∃ h', addHeaderValues x h key vs = .ok h' ∧
        ∀ k', h'.get k' = if x.canonicalKey key = k' then h.get k' ++ ss else h.get k' := by
  intro vs
  induction vs with
  | nil =>
    intro ss h hs
    simp only [allStrings?, Option.some.injEq] at hs
    subst hs
    exact ⟨h, rfl, fun k' => by simp⟩
  | cons v rest ih =>
    intro ss h hs
    cases v with
    | str s =>
      cases hrest : allStrings? rest with
      | none => simp [allStrings?, Value.asString?, hrest] at hs
      | some ss' =>
        simp only [allStrings?, Value.asString?, hrest, Option.some.injEq] at hs
        subst hs
        obtain ⟨h', hok, hget⟩ := ih ss' (h.Add x key s) hrest
        refine ⟨h', by simpa [addHeaderValues, Value.asString?] using hok, ?_⟩
        intro k'
        rw [hget k']
        simp only [Header.Add, Header.get_append]
        by_cases hk : x.canonicalKey key = k' <;> simp [hk]
    | _ => simp [allStrings?, Value.asString?] at hs

/-- The inner loop fails on a sequence with an element that is not a string. -/
theorem addHeaderValues_error (x : Externals) (key : String) :
    ∀ (vs : List Value) (h : Header), allStrings? vs = none →
      ∃ err, addHeaderValues x h key vs = .error err := by
  intro vs
  induction vs with
  | nil => intro h hs; simp [allStrings?] at hs
  | cons v rest ih =>
    intro h hs
    cases v with
    | str s =>
      cases hrest : allStrings? rest with
      | none =>
        obtain ⟨err, herr⟩ := ih (h.Add x key s) hrest
        exact ⟨err, by simpa [addHeaderValues, Value.asString?] using herr⟩
      | some ss' => simp [allStrings?, Value.asString?, hrest] at hs
    | _ => exact ⟨_, rfl⟩

/-- The outer loop succeeds when every entry is a string or a sequence of strings, and each
canonical key then holds what it held before followed by the values of its entries. -/
theorem addHeaderEntries_ok (x : Externals) :
    ∀ (fields : Dict) (h : Header), (∀ kv ∈ fields, (headerValues? kv.2).isSome = true) →
      ∃ h', addHeaderEntries x h fields = .ok h' ∧
        ∀ k', h'.get k' = h.get k' ++ collectValues x k' fields := by
  intro fields
  induction fields with
  | nil => intro h _; exact ⟨h, rfl, fun k' => by simp [collectValues]⟩
  | cons e rest ih =>
    intro h hall
    obtain ⟨key, v⟩ := e
    have hv : (headerValues? v).isSome = true := hall (key, v) (List.mem_cons_self _ _)
    have hrest : ∀ kv ∈ rest, (headerValues? kv.2).isSome = true :=
      fun kv hkv => hall kv (List.mem_cons_of_mem _ hkv)
    cases v with
    | str s =>
      obtain ⟨h', hok, hget⟩ := ih (h.Add x key s) hrest
      refine ⟨h', by simpa [addHeaderEntries] using hok, ?_⟩
      intro k'
      rw [hget k']
      simp only [Header.Add, Header.get_append, collectValues, headerValues?]
      by_cases hk : x.canonicalKey key = k' <;> simp [hk]
    | array xs =>
      cases hxs : allStrings? xs with
      | none => simp [headerValues?, hxs] at hv
      | some ss =>
        obtain ⟨h₁, hok₁, hget₁⟩ := addHeaderValues_ok x key xs ss h hxs
        obtain ⟨h', hok, hget⟩ := ih h₁ hrest
        refine ⟨h', by simpa [addHeaderEntries, hok₁] using hok, ?_⟩
        intro k'
        rw [hget k', hget₁ k']
        simp only [collectValues, headerValues?, hxs]
        by_cases hk : x.canonicalKey key = k' <;> simp [hk]
    | _ => simp [headerValues?] at hv

/-- The outer loop fails when some entry is neither a string nor a sequence of strings. -/
theorem addHeaderEntries_error (x : Externals) :
    ∀ (fields : Dict) (h : Header), (∃ kv ∈ fields, headerValues? kv.2 = none) →
      ∃ err, addHeaderEntries x h fields = .error err := by
  intro fields
  induction fields with
  | nil => intro h hex; obtain ⟨kv, hkv, _⟩ := hex; cases hkv
  | cons e rest ih =>
    intro h hex
    obtain ⟨key, v⟩ := e
    by_cases hv : headerValues? v = none
    · cases v with
      | str s => simp [headerValues?] at hv
      | array xs =>
        obtain ⟨err, herr⟩ := addHeaderValues_error x key xs h (by simpa [headerValues?] using hv)
        exact ⟨err, by simp [addHeaderEntries, herr]⟩
      | _ => exact ⟨_, rfl⟩
    · have hrest : ∃ kv ∈ rest, headerValues? kv.2 = none := by
        obtain ⟨kv, hkv, hnone⟩ := hex
        rcases List.mem_cons.mp hkv with heq | hmem
        · subst heq; exact absurd hnone hv
        · exact ⟨kv, hmem, hnone⟩
      cases v with
      | str s =>
        obtain ⟨err, herr⟩ := ih (h.Add x key s) hrest
        exact ⟨err, by simpa [addHeaderEntries] using herr⟩
      | array xs =>
        cases hxs : allStrings? xs with
        | none => simp [headerValues?, hxs] at hv
        | some ss =>
          obtain ⟨h₁, hok₁, _⟩ := addHeaderValues_ok x key xs ss h hxs
          obtain ⟨err, herr⟩ := ih h₁ hrest
          exact ⟨err, by simpa [addHeaderEntries, hok₁] using herr⟩
      | _ => exact ⟨_, rfl⟩

/-- Entries whose canonical key differs from `k` contribute nothing under `k`. -/
theorem collectValues_of_ne (x : Externals) (k : String) :
    ∀ fields : Dict, (∀ kv ∈ fields, x.canonicalKey kv.1 ≠ k) → collectValues x k fields = [] := by
  intro fields
  induction fields with
  | nil => intro _; rfl
  | cons e rest ih =>
    intro hne
    obtain ⟨key, v⟩ := e
    have h1 : x.canonicalKey key ≠ k := hne (key, v) (List.mem_cons_self _ _)
    simp [collectValues, h1, ih (fun kv hkv => hne kv (List.mem_cons_of_mem _ hkv))]

/-- The contributions of a concatenation of entries. -/
theorem collectValues_append (x : Externals) (k : String) (post : Dict) :
    ∀ pre : Dict, collectValues x k (pre ++ post) = collectValues x k pre ++ collectValues x k post := by
  intro pre
  induction pre with
  | nil => rfl
  | cons e rest ih =>
    obtain ⟨key, v⟩ := e
    simp [collectValues, ih]

/-- C9: HeadersFromObj fails when the input is not a mapping; on a mapping it succeeds exactly
when every value is a string or a sequence of strings; on success an input key whose canonical
form no other key shares holds `[s]` for a string value `s` and, for a sequence value, its
elements in the same order with duplicates kept. `{"X-A":"1"}` gives `["1"]`,
`{"X-A":["1","2"]}` gives `["1","2"]`, `{"X-A":5}` fails. -/
theorem HeadersFromObj_spec (x : Externals) :
    (∀ v : Value, (∀ fields : Dict, v ≠ .dict fields) → ∃ err, HeadersFromObj x v = .error err) ∧
      (∀ fields : Dict, (∃ h, HeadersFromObj x (.dict fields) = .ok h) ↔
        ∀ kv ∈ fields, (headerValues? kv.2).isSome = true) ∧
      (∀ (pre post : Dict) (key : String) (v : Value) (h : Header) (ss : List String),
        HeadersFromObj x (.dict (pre ++ (key, v) :: post)) = .ok h →
        (∀ kv ∈ pre ++ post, x.canonicalKey kv.1 ≠ x.canonicalKey key) →
        headerValues? v = some ss → h.get (x.canonicalKey key) = ss) ∧
      (∃ h, HeadersFromObj x (.dict [("X-A", .str "1")]) = .ok h ∧
        h.get (x.canonicalKey "X-A") = ["1"]) ∧
      (∃ h, HeadersFromObj x (.dict [("X-A", .array [.str "1", .str "2"])]) = .ok h ∧
        h.get (x.canonicalKey "X-A") = ["1", "2"]) ∧
      (∃ err, HeadersFromObj x (.dict [("X-A", num 5)]) = .error err) := by
  have hiff : ∀ fields : Dict, (∃ h, HeadersFromObj x (.dict fields) = .ok h) ↔
      ∀ kv ∈ fields, (headerValues? kv.2).isSome = true := by
    intro fields
    constructor
    · intro hex
      by_contra hnot
      push_neg at hnot
      obtain ⟨kv, hkv, hkv'⟩ := hnot
      have hnone : headerValues? kv.2 = none := by
        cases hval : headerValues? kv.2 with
        | none => rfl
        | some ss => simp [hval] at hkv'
      obtain ⟨err, herr⟩ := addHeaderEntries_error x fields [] ⟨kv, hkv, hnone⟩
      obtain ⟨h, hok⟩ := hex
      simp [HeadersFromObj, Value.asDict?, herr] at hok
    · intro hall
      obtain ⟨h', hok, _⟩ := addHeaderEntries_ok x fields [] hall
      exact ⟨h', by simpa [HeadersFromObj, Value.asDict?] using hok⟩
  have hval : ∀ (pre post : Dict) (key : String) (v : Value) (h : Header) (ss : List String),
      HeadersFromObj x (.dict (pre ++ (key, v) :: post)) = .ok h →
      (∀ kv ∈ pre ++ post, x.canonicalKey kv.1 ≠ x.canonicalKey key) →
      headerValues? v = some ss → h.get (x.canonicalKey key) = ss := by
    intro pre post key v h ss hok hne hv
    have hall := (hiff _).mp ⟨h, hok⟩
    obtain ⟨h', hok', hget⟩ := addHeaderEntries_ok x _ [] hall
    have heq : h' = h := by
      simp only [HeadersFromObj, Value.asDict?] at hok
      rw [hok'] at hok
      exact Except.ok.inj hok
    subst heq
    rw [hget, collectValues_append]
    have hpre := collectValues_of_ne x (x.canonicalKey key) pre
      (fun kv hkv => hne kv (List.mem_append_left _ hkv))
    have hpost := collectValues_of_ne x (x.canonicalKey key) post
      (fun kv hkv => hne kv (List.mem_append_right _ hkv))
    simp [collectValues, hpre, hpost, hv, Header.get]
  refine ⟨?_, hiff, hval, ?_, ?_, ⟨_, rfl⟩⟩
  · intro v hv
    cases v with
    | dict fields => exact absurd rfl (hv fields)
    | _ => exact ⟨_, rfl⟩
  · obtain ⟨h, hok⟩ := (hiff [("X-A", .str "1")]).mpr (by simp [headerValues?])
    exact ⟨h, hok, hval [] [] "X-A" (.str "1") h ["1"] hok (by simp) rfl⟩
  · obtain ⟨h, hok⟩ := (hiff [("X-A", .array [.str "1", .str "2"])]).mpr
      (by simp [headerValues?, allStrings?, Value.asString?])
    exact ⟨h, hok, hval [] [] "X-A" (.array [.str "1", .str "2"]) h ["1", "2"] hok (by simp) rfl⟩

/-- Witness for C9: in `{"Accept":["a","b","a"],"X-A":"1"}` the key "Accept" holds its three
elements in order, the duplicate included. -/
theorem HeadersFromObj_spec_witness :
    HeadersFromObj exampleExternals
        (.dict [("Accept", .array [.str "a", .str "b", .str "a"]), ("X-A", .str "1")]) =
        .ok [("Accept", ["a", "b", "a"]), ("X-A", ["1"])] ∧
      Header.get [("Accept", ["a", "b", "a"]), ("X-A", ["1"])] "Accept" = ["a", "b", "a"] :=
  ⟨rfl, (HeadersFromObj_spec exampleExternals).2.2.1 []
      [("X-A", .str "1")] "Accept" (.array [.str "a", .str "b", .str "a"])
      [("Accept", ["a", "b", "a"]), ("X-A", ["1"])] ["a", "b", "a"] rfl
      (by decide) rfl⟩

/-! ## Reply construction -/

/-- Go `f == float64(n)` holds exactly when the finite float64 `f` has the integer value `n`. -/
theorem Float64.eq_ofInt_iff (m e n : Int) :
    (Float64.finite m e).eq (Float64.ofInt n) = true ↔ (m : ℚ) * (2 : ℚ) ^ e = (n : ℚ) := by
  simp only [Float64.eq, Float64.ofInt, decide_eq_true_eq]
  by_cases he : 0 ≤ e
  · obtain ⟨k, rfl⟩ := Int.eq_ofNat_of_zero_le he
    have hmin : min (k : Int) 0 = 0 := min_eq_right he
    simp only [hmin, sub_zero, Int.toNat_ofNat, Int.toNat_zero, pow_zero, mul_one, zpow_natCast]
    constructor
    · intro h; exact_mod_cast h
    · intro h; exact_mod_cast h
  · have hlt : e < 0 := not_le.mp he
    obtain ⟨k, hk⟩ := Int.eq_ofNat_of_zero_le (show 0 ≤ -e by omega)
    have hek : e = -(k : Int) := by omega
    subst hek
    have hmin : min (-(k : Int)) 0 = -(k : Int) := min_eq_left (le_of_lt hlt)
    have h2 : ((2 : ℚ) ^ k) ≠ 0 := pow_ne_zero _ (by norm_num)
    simp only [hmin, sub_self, Int.toNat_zero, pow_zero, mul_one, zero_sub, neg_neg,
      Int.toNat_ofNat, zpow_neg, zpow_natCast]
    rw [mul_inv_eq_iff_eq_mul₀ h2]
    constructor
    · intro h; exact_mod_cast h
    · intro h; exact_mod_cast h

/-- Go `int(f)` is `n` when the finite float64 `f` has the integer value `n` and `n` fits. -/
theorem Float64.toInt_of_value (m e n : Int) (h : (m : ℚ) * (2 : ℚ) ^ e = (n : ℚ))
    (hlo : minInt64 ≤ n) (hhi : n ≤ maxInt64) : (Float64.finite m e).toInt = n := by
  have htr : Float64.trunc m e = n := by
    unfold Float64.trunc
    by_cases he : 0 ≤ e
    · obtain ⟨k, rfl⟩ := Int.eq_ofNat_of_zero_le he
      rw [if_pos he]
      rw [zpow_natCast] at h
      simp only [Int.toNat_ofNat]
      exact_mod_cast h
    · obtain ⟨k, hk⟩ := Int.eq_ofNat_of_zero_le (show 0 ≤ -e by omega)
      have hek : e = -(k : Int) := by omega
      subst hek
      rw [if_neg he]
      have h2 : ((2 : ℚ) ^ k) ≠ 0 := pow_ne_zero _ (by norm_num)
      rw [zpow_neg, zpow_natCast, mul_inv_eq_iff_eq_mul₀ h2] at h
      have hm : m = n * 2 ^ k := by exact_mod_cast h
      simp only [neg_neg, Int.toNat_ofNat]
      rw [hm]
      exact Int.mul_tdiv_cancel n (pow_ne_zero _ (by norm_num))
  simp only [Float64.toInt, htr]
  rw [if_pos ⟨hlo, hhi⟩]

/-- Go `int(f)` always lies in the int64 range. -/
theorem Float64.toInt_range (f : Float64) : minInt64 ≤ f.toInt ∧ f.toInt ≤ maxInt64 := by
  cases f with
  | finite m e =>
    simp only [Float64.toInt]
    split
    · assumption
    · decide
  | inf neg => exact ⟨le_refl _, show minInt64 ≤ maxInt64 by decide⟩
  | nan => exact ⟨le_refl _, show minInt64 ≤ maxInt64 by decide⟩

/-- The test `codeF != float64(int(codeF)) || codeF < 0` of NewReplyFromDict passes exactly for
the float64 values that are a non-negative integer within the `int` range, and `int(codeF)` is
then that integer. -/
theorem Float64.nonneg_int_iff (f : Float64) (n : Int) :
    (f.eq (Float64.ofInt f.toInt) = true ∧ f.ltZero = false ∧ f.toInt = n) ↔
      (f.value? = some (n : ℚ) ∧ 0 ≤ n ∧ n ≤ maxInt64) := by
  cases f with
  | finite m e =>
    have h2pos : (0 : ℚ) < (2 : ℚ) ^ e := zpow_pos (by norm_num) e
    simp only [Float64.value?, Option.some.injEq, Float64.ltZero, decide_eq_false_iff_not, not_lt]
    constructor
    · rintro ⟨heq, hm, hn⟩
      have hval := (Float64.eq_ofInt_iff m e _).mp heq
      rw [hn] at hval
      refine ⟨hval, ?_, hn ▸ (Float64.toInt_range _).2⟩
      have hq : (0 : ℚ) ≤ (m : ℚ) * (2 : ℚ) ^ e :=
        mul_nonneg (by exact_mod_cast hm) (le_of_lt h2pos)
      rw [hval] at hq
      exact_mod_cast hq
    · rintro ⟨hval, hn0, hnmax⟩
      have hto : (Float64.finite m e).toInt = n :=
        Float64.toInt_of_value m e n hval (le_trans (by decide) hn0) hnmax
      refine ⟨?_, ?_, hto⟩
      · rw [hto]; exact (Float64.eq_ofInt_iff m e n).mpr hval
      · by_contra hneg
        have hmneg : (m : ℚ) < 0 := by exact_mod_cast not_le.mp hneg
        have hq : (m : ℚ) * (2 : ℚ) ^ e < 0 := mul_neg_of_neg_of_pos hmneg h2pos
        rw [hval] at hq
        have : n < 0 := by exact_mod_cast hq
        omega
  | inf neg => simp [Float64.eq, Float64.ofInt, Float64.value?]
  | nan => simp [Float64.eq, Float64.ofInt, Float64.value?]

/-- C8 (counterexample): the code `2 ^ 100` is a number, integer-valued and `>= 0`, and the
message is present and JSON-encodable, yet NewReplyFromDict fails: the value does not fit `int`,
so `float64(int(codeF))` differs from `codeF`. -/
theorem NewReplyFromDict_huge_code_counterexample :
    Float64.value? (.finite 1 100) = some (((2 ^ 100 : Int) : ℚ)) ∧ (0 : Int) ≤ 2 ^ 100 ∧
      jsonMarshalOk (.str "big") = true ∧
      NewReplyFromDict [("code", .number (.finite 1 100)), ("message", .str "big")] =
        .error "Proper HTTP code is required" := by
  refine ⟨?_, by positivity, rfl, ?_⟩
  · simp only [Float64.value?, Option.some.injEq]
    norm_num
  · simp [NewReplyFromDict, Dict.get?, List.lookup, Value.asFloat64?, Float64.eq, Float64.ofInt,
      Float64.toInt, Float64.trunc, minInt64, maxInt64]

/-- C8 (amended): NewReplyFromDict succeeds if and only if "code" is present and is a number
that is integer-valued, `>= 0` and at most the largest `int` (2^63 - 1), and "message" is
present and JSON-encodable; on success the Reply has Code equal to that integer and Message
equal to the input message unchanged. Code -1 fails, code 3.5 fails, a missing message fails,
and code 200 with message `{"a":1}` succeeds. -/
theorem NewReplyFromDict_spec :
    (∀ (inp : Dict) (c : Command), NewReplyFromDict inp = .ok c ↔
      ∃ (codeF : Float64) (n : Int) (messageI : Value),
        inp.get? "code" = some (.number codeF) ∧ codeF.value? = some (n : ℚ) ∧
        0 ≤ n ∧ n ≤ maxInt64 ∧
        inp.get? "message" = some messageI ∧ jsonMarshalOk messageI = true ∧
        c = .reply { Code := n, Message := messageI }) ∧
      (∃ err, NewReplyFromDict [("code", num (-1)), ("message", .str "m")] = .error err) ∧
      (∃ err, NewReplyFromDict [("code", .number (.finite 7 (-1))), ("message", .str "m")] =
        .error err) ∧
      (∃ err, NewReplyFromDict [("code", num 200)] = .error err) ∧
      NewReplyFromDict [("code", num 200), ("message", .dict [("a", num 1)])] =
        .ok (.reply { Code := 200, Message := .dict [("a", num 1)] }) := by
  refine ⟨?_, ⟨_, rfl⟩, ⟨_, rfl⟩, ⟨_, rfl⟩, rfl⟩
  intro inp c
  constructor
  · intro h
    unfold NewReplyFromDict at h
    split at h
    · cases h
    · rename_i codeI hcode
      split at h
      · cases h
      · rename_i codeF hF
        split at h
        · cases h
        · rename_i htest
          split at h
          · cases h
          · rename_i messageI hmsg
            split at h
            · cases h
            · rename_i hjson
              simp only [Except.ok.injEq] at h
              cases codeI with
              | number f =>
                simp only [Value.asFloat64?, Option.some.injEq] at hF
                subst hF
                simp only [Bool.or_eq_true, Bool.not_eq_true', not_or, Bool.not_eq_false,
                  Bool.not_eq_true] at htest
                have hch := (Float64.nonneg_int_iff f f.toInt).mp ⟨htest.1, htest.2, rfl⟩
                refine ⟨f, f.toInt, messageI, hcode, hch.1, hch.2.1, hch.2.2, hmsg, ?_, h.symm⟩
                simpa using hjson
              | _ => simp [Value.asFloat64?] at hF
  · rintro ⟨codeF, n, messageI, hcode, hval, hn0, hnmax, hmsg, hjson, hc⟩
    have hch := (Float64.nonneg_int_iff codeF n).mpr ⟨hval, hn0, hnmax⟩
    have heq : codeF.eq (Float64.ofInt n) = true := by
      have h1 := hch.1
      rwa [hch.2.2] at h1
    subst hc
    simp [NewReplyFromDict, hcode, Value.asFloat64?, heq, hch.2.1, hch.2.2, hmsg, hjson]

/-- Witness for C8 (amended): `{"code":404,"message":"not found"}` meets the condition and
gives the Reply with Code 404 and the same message. -/
theorem NewReplyFromDict_spec_witness :
    NewReplyFromDict replyObj = .ok (.reply { Code := 404, Message := .str "not found" }) :=
  (NewReplyFromDict_spec.1 replyObj (.reply { Code := 404, Message := .str "not found" })).mpr
    ⟨.finite 404 0, 404, .str "not found", rfl, by simp [Float64.value?], by decide, by decide,
      rfl, rfl, rfl⟩

/-! ## Header extraction from a directive -/

/-- C10: the add set is claimed to equal HeadersFromObj of the "add-headers" value, and likewise
for "remove-headers"; for `{"add-headers":{"X-A":"1"},"remove-headers":{"X-B":"2"}}` both values
parse to a one-entry header, but AddRemoveHeadersFromDict returns two empty sets, because the
parsed headers are assigned to variables local to the `if exists` blocks. -/
theorem AddRemoveHeadersFromDict_drops_parsed_headers (x : Externals) :
    HeadersFromObj x (.dict [("X-A", .str "1")]) = .ok [(x.canonicalKey "X-A", ["1"])] ∧
      HeadersFromObj x (.dict [("X-B", .str "2")]) = .ok [(x.canonicalKey "X-B", ["2"])] ∧
      AddRemoveHeadersFromDict x
          [("add-headers", .dict [("X-A", .str "1")]),
           ("remove-headers", .dict [("X-B", .str "2")])] = .ok ([], []) :=
  ⟨rfl, rfl, rfl⟩

/-! ## Retry hint and period budget -/

/-- C13 (counterexample): with a period of 1.5s the instant 1.5s after the zero time lies on a
bucket boundary, and RetrySeconds there is 2, not `period / 1s = 1`: the two `Unix()` readings
are rounded down separately. -/
theorem Rate.retrySeconds_fractional_counterexample :
    0 < fractionalRate.Requests ∧ Second ≤ fractionalRate.Period ∧
      fractionalRate.Period ≤ 24 * Hour ∧
      fractionalRate.CurrentBucket fractionalBoundary = fractionalBoundary ∧
      fractionalRate.RetrySeconds fractionalBoundary = 2 ∧
      fractionalRate.Period / Second = 1 := by
  refine ⟨by decide, by decide, by decide, by decide, by decide, by decide⟩

/-- C13 (amended): for a Rate with requests > 0 and 1s <= period <= 24h whose period is a whole
number of seconds, and an instant now exactly on a bucket boundary (CurrentBucket(now) == now),
RetrySeconds(now), which is NextBucket(now).Unix() - now.Unix(), is the full period length in
seconds, period / 1s. -/
theorem Rate.retrySeconds_at_boundary (r : Rate) (now : Time) (_hreq : 0 < r.Requests)
    (hlo : Second ≤ r.Period) (_hhi : r.Period ≤ 24 * Hour) (hwhole : r.Period % Second = 0)
    (hb : r.CurrentBucket now = now) :
    r.RetrySeconds now = r.Period / Second ∧
      r.RetrySeconds now = (r.NextBucket now).Unix - now.Unix := by
  have hp : 0 < r.Period := lt_of_lt_of_le second_pos hlo
  have hc := Rate.currentBucket_abs r now hp
  have hn := Rate.nextBucket_abs r now hp
  rw [hb] at hc
  have hs : (Second : Int) = 1000000000 := rfl
  refine ⟨?_, rfl⟩
  simp only [Rate.RetrySeconds, Time.Unix, hn]
  rw [hs] at hwhole ⊢
  omega

/-- Witness for C13 (amended): a one-minute rate at the instant two minutes after the zero
time. -/
theorem Rate.retrySeconds_at_boundary_witness :
    (Rate.mk 100 Minute UnitTypeRequests).CurrentBucket ⟨120000000000, "UTC"⟩ =
        ⟨120000000000, "UTC"⟩ ∧
      (Rate.mk 100 Minute UnitTypeRequests).RetrySeconds ⟨120000000000, "UTC"⟩ =
        Minute / Second :=
  ⟨by decide,
   (Rate.retrySeconds_at_boundary (Rate.mk 100 Minute UnitTypeRequests) ⟨120000000000, "UTC"⟩
      (by decide) (by decide) (by decide) (by decide) (by decide)).1⟩

/-- C14 (counterexample): for 9223372037 requests per second the product with the period
exceeds int64 and wraps to a negative value; PeriodSeconds is -9223372036, which is neither
the floor of the wrapped product over 10^9 nor the floor of the exact product over 10^9. -/
theorem Rate.periodSeconds_overflow_counterexample :
    0 < overflowRate.Requests ∧ overflowRate.Requests ≤ maxInt64 ∧
      Second ≤ overflowRate.Period ∧ overflowRate.Period ≤ 24 * Hour ∧
      overflowRate.PeriodSeconds = -9223372036 ∧
      wrapInt64 (overflowRate.Requests * overflowRate.Period) / 1000000000 = -9223372037 ∧
      overflowRate.Requests * overflowRate.Period / 1000000000 = 9223372037 := by
  refine ⟨by decide, by decide, by decide, by decide, by decide, by decide, by decide⟩

/-- C14 (amended): for a Rate with requests > 0 and 1s <= period <= 24h, PeriodSeconds() is the
int64 product requests * period (arithmetic modulo 2^64) divided by 10^9 with the quotient
truncated toward zero; whenever the product does not exceed the largest int64 this is
floor(requests * period_in_nanoseconds / 10^9). -/
theorem Rate.periodSeconds_spec (r : Rate) (hreq : 0 < r.Requests)
    (hlo : Second ≤ r.Period) (_hhi : r.Period ≤ 24 * Hour) :
    r.PeriodSeconds = Int.tdiv (wrapInt64 (r.Requests * r.Period)) 1000000000 ∧
      (r.Requests * r.Period ≤ maxInt64 →
        r.PeriodSeconds = r.Requests * r.Period / 1000000000) := by
  refine ⟨rfl, ?_⟩
  intro hfit
  have hp : 0 < r.Period := lt_of_lt_of_le second_pos hlo
  have hprod : 0 ≤ r.Requests * r.Period := le_of_lt (mul_pos hreq hp)
  have hwrap : wrapInt64 (r.Requests * r.Period) = r.Requests * r.Period := by
    unfold wrapInt64
    generalize r.Requests * r.Period = p at hprod hfit
    simp only [minInt64, maxInt64] at hfit ⊢
    omega
  have hs : (Second : Int) = 1000000000 := rfl
  simp only [Rate.PeriodSeconds, hwrap, hs]
  exact Int.tdiv_eq_ediv hprod (by decide)

/-- Witness for C14 (amended): a hundred requests per minute give 6000. -/
theorem Rate.periodSeconds_spec_witness :
    (Rate.mk 100 Minute UnitTypeRequests).PeriodSeconds = 100 * Minute / 1000000000 ∧
      (100 * Minute / 1000000000 : Int) = 6000 :=
  ⟨(Rate.periodSeconds_spec (Rate.mk 100 Minute UnitTypeRequests)
      (by decide) (by decide) (by decide)).2 (by decide), by decide⟩

/-- C15: for a Rate with period > 0 and any instant t, truncating to the bucket start twice is
the same as truncating once: CurrentBucket(CurrentBucket(t)) == CurrentBucket(t). -/
theorem Rate.currentBucket_idempotent (r : Rate) (t : Time) (hp : 0 < r.Period) :
    r.CurrentBucket (r.CurrentBucket t) = r.CurrentBucket t := by
  have hnot : ¬ r.Period ≤ 0 := not_le.mpr hp
  have hmod : (t.abs + -(t.abs % r.Period)) % r.Period = 0 := by
    rw [← sub_eq_add_neg]
    exact Int.emod_eq_zero_of_dvd (Int.dvd_sub_of_emod_eq rfl)
  simp [Rate.CurrentBucket, Time.Truncate, hnot, Time.Add, hmod]

/-- Witness for C15: a one-minute rate at 90.5 seconds after the zero time. -/
theorem Rate.currentBucket_idempotent_witness :
    (Rate.mk 100 Minute UnitTypeRequests).CurrentBucket
        ((Rate.mk 100 Minute UnitTypeRequests).CurrentBucket ⟨90500000000, "Local"⟩) =
      (Rate.mk 100 Minute UnitTypeRequests).CurrentBucket ⟨90500000000, "Local"⟩ :=
  Rate.currentBucket_idempotent (Rate.mk 100 Minute UnitTypeRequests) ⟨90500000000, "Local"⟩
    (by decide)

/-- C20: for a Rate whose period is a whole number of seconds P with 1 <= P <= 86400 and any
instant now, 1 <= RetrySeconds(now) <= P: the retry hint is never zero or negative and never
exceeds one period. -/
theorem Rate.retrySeconds_bounds (r : Rate) (now : Time) (P : Int)
    (hP : r.Period = P * Second) (h1 : 1 ≤ P) (_h2 : P ≤ 86400) :
    1 ≤ r.RetrySeconds now ∧ r.RetrySeconds now ≤ P := by
  have hs : (Second : Int) = 1000000000 := rfl
  have hp : 0 < r.Period := by rw [hP, hs]; omega
  have hn := Rate.nextBucket_abs r now hp
  have h0 : 0 ≤ now.abs % r.Period := Int.emod_nonneg _ (ne_of_gt hp)
  have hlt : now.abs % r.Period < r.Period := Int.emod_lt_of_pos _ hp
  have hdvd : r.Period ∣ (r.NextBucket now).abs := by
    rw [hn]
    have : now.abs + r.Period - now.abs % r.Period = (now.abs - now.abs % r.Period) + r.Period := by
      ring
    rw [this]
    exact dvd_add (Int.dvd_sub_of_emod_eq rfl) (dvd_refl _)
  obtain ⟨j, hj⟩ := hdvd
  have hj' : (r.NextBucket now).abs = 1000000000 * (P * j) := by
    rw [hj, hP, hs]; ring
  generalize P * j = w at hj'
  simp only [Rate.RetrySeconds, Time.Unix, hs]
  rw [hP, hs] at hn h0 hlt
  generalize now.abs % (P * 1000000000) = m at hn h0 hlt
  omega

/-- Witness for C20: a one-minute rate at 90.5 seconds after the zero time. -/
theorem Rate.retrySeconds_bounds_witness :
    1 ≤ (Rate.mk 100 Minute UnitTypeRequests).RetrySeconds ⟨90500000000, "Local"⟩ ∧
      (Rate.mk 100 Minute UnitTypeRequests).RetrySeconds ⟨90500000000, "Local"⟩ ≤ 60 :=
  Rate.retrySeconds_bounds (Rate.mk 100 Minute UnitTypeRequests) ⟨90500000000, "Local"⟩ 60
    (by decide) (by decide) (by decide)

/-! ## Vocabulary tables and the NewRate guard -/

/-- C17: UnitTypeFromString succeeds exactly on "req", "reqs", "request", "requests" (giving
UnitTypeRequests), "MB" (UnitTypeMegabytes) and "Mb" (UnitTypeMegabits); PeriodFromString
succeeds exactly on "second", "minute", "hour", giving 1s, 60s and 3600s; every other string,
the empty string and other letter case included, is rejected with an error. -/
theorem vocabulary_tables_exact :
    (∀ (u : String) (k : Int), UnitTypeFromString u = .ok k ↔
      ((u = "req" ∨ u = "reqs" ∨ u = "request" ∨ u = "requests") ∧ k = UnitTypeRequests) ∨
        (u = "MB" ∧ k = UnitTypeMegabytes) ∨ (u = "Mb" ∧ k = UnitTypeMegabits)) ∧
      (∀ (p : String) (d : Int), PeriodFromString p = .ok d ↔
        (p = "second" ∧ d = 1 * Second) ∨ (p = "minute" ∧ d = 60 * Second) ∨
          (p = "hour" ∧ d = 3600 * Second)) ∧
      (∀ u : String, u ∉ ["req", "reqs", "request", "requests", "MB", "Mb"] →
        UnitTypeFromString u = .error "Unsupported unit") ∧
      (∀ p : String, p ∉ ["second", "minute", "hour"] →
        PeriodFromString p = .error ("Unsupported period: " ++ p)) ∧
      UnitTypeFromString "" = .error "Unsupported unit" ∧
      UnitTypeFromString "mb" = .error "Unsupported unit" ∧
      UnitTypeFromString "Req" = .error "Unsupported unit" ∧
      PeriodFromString "" = .error "Unsupported period: " ∧
      PeriodFromString "Second" = .error "Unsupported period: Second" := by
  have hmin : (Minute : Int) = 60 * Second := rfl
  have hhour : (Hour : Int) = 3600 * Second := by decide
  refine ⟨?_, ?_, ?_, ?_, rfl, rfl, rfl, rfl, rfl⟩
  · intro u k
    unfold UnitTypeFromString
    constructor
    · intro h
      split at h
      · rename_i hu
        exact Or.inr (Or.inr ⟨hu, (Except.ok.inj h).symm⟩)
      · split at h
        · rename_i hu
          exact Or.inr (Or.inl ⟨hu, (Except.ok.inj h).symm⟩)
        · split at h
          · rename_i hu
            refine Or.inl ⟨?_, (Except.ok.inj h).symm⟩
            rcases hu with hu | hu | hu | hu
            · exact Or.inl hu
            · exact Or.inr (Or.inl hu)
            · exact Or.inr (Or.inr (Or.inr hu))
            · exact Or.inr (Or.inr (Or.inl hu))
          · cases h
    · rintro (⟨hu | hu | hu | hu, hk⟩ | ⟨hu, hk⟩ | ⟨hu, hk⟩) <;> subst hu <;> subst hk <;> rfl
  · intro p d
    unfold PeriodFromString
    constructor
    · intro h
      split at h
      · rename_i hp
        exact Or.inl ⟨hp, by rw [one_mul]; exact (Except.ok.inj h).symm⟩
      · split at h
        · rename_i hp
          exact Or.inr (Or.inl ⟨hp, by rw [← hmin]; exact (Except.ok.inj h).symm⟩)
        · split at h
          · rename_i hp
            exact Or.inr (Or.inr ⟨hp, by rw [← hhour]; exact (Except.ok.inj h).symm⟩)
          · cases h
    · rintro (⟨hp, hd⟩ | ⟨hp, hd⟩ | ⟨hp, hd⟩) <;> subst hp <;> subst hd
      · rw [one_mul]; rfl
      · rw [← hmin]; rfl
      · rw [← hhour]; rfl
  · intro u hu
    simp only [List.mem_cons, List.mem_singleton, List.not_mem_nil, or_false, not_or] at hu
    obtain ⟨h1, h2, h3, h4, h5, h6⟩ := hu
    simp [UnitTypeFromString, h1, h2, h3, h4, h5, h6]
  · intro p hp
    simp only [List.mem_cons, List.mem_singleton, List.not_mem_nil, or_false, not_or] at hp
    obtain ⟨h1, h2, h3⟩ := hp
    simp [PeriodFromString, h1, h2, h3]

/-- Witness for C17: "requests" is a unit word and "hour" a period word. -/
theorem vocabulary_tables_exact_witness :
    UnitTypeFromString "requests" = .ok UnitTypeRequests ∧
      PeriodFromString "hour" = .ok (3600 * Second) ∧
      UnitTypeFromString "megabyte" = .error "Unsupported unit" :=
  ⟨(vocabulary_tables_exact.1 "requests" UnitTypeRequests).mpr
      (Or.inl ⟨Or.inr (Or.inr (Or.inr rfl)), rfl⟩),
   (vocabulary_tables_exact.2.1 "hour" (3600 * Second)).mpr (Or.inr (Or.inr ⟨rfl, rfl⟩)),
   vocabulary_tables_exact.2.2.1 "megabyte" (by decide)⟩

/-- NewRate returns an error on every input. -/
theorem NewRate_error (requests period unitType : Int) :
    ∃ err, NewRate requests period unitType = .error err := by
  unfold NewRate
  split
  · exact ⟨_, rfl⟩
  · split
    · exact ⟨_, rfl⟩
    · rename_i hguard
      exfalso
      apply hguard
      simp only [UnitTypeRequests, UnitTypeMegabytes, UnitTypeMegabits]
      omega

/-- C18: the unit-type guard of NewRate holds for every integer unitType, so NewRate returns an
error for every requests, period and unitType, and so do NewRateFromString, NewRateFromDict and
NewRateFromObj on every input. -/
theorem NewRate_always_fails :
    (∀ unitType : Int, unitType ≠ UnitTypeRequests ∨ unitType ≠ UnitTypeMegabytes ∨
        unitType ≠ UnitTypeMegabits) ∧
      (∀ requests period unitType : Int, ∃ err, NewRate requests period unitType = .error err) ∧
      (∀ inp : String, ∃ err, NewRateFromString inp = .error err) ∧
      (∀ inp : Dict, ∃ err, NewRateFromDict inp = .error err) ∧
      (∀ inp : Value, ∃ err, NewRateFromObj inp = .error err) := by
  have hstr : ∀ inp : String, ∃ err, NewRateFromString inp = .error err := by
    intro inp
    unfold NewRateFromString
    split
    · exact ⟨_, rfl⟩
    · split
      · exact ⟨_, rfl⟩
      · split
        · exact ⟨_, rfl⟩
        · split
          · exact ⟨_, rfl⟩
          · exact NewRate_error _ _ _
  have hdict : ∀ inp : Dict, ∃ err, NewRateFromDict inp = .error err := by
    intro inp
    unfold NewRateFromDict
    split
    · exact ⟨_, rfl⟩
    · split
      · exact ⟨_, rfl⟩
      · split
        · exact ⟨_, rfl⟩
        · split
          · exact ⟨_, rfl⟩
          · split
            · exact ⟨_, rfl⟩
            · split
              · exact ⟨_, rfl⟩
              · split
                · exact NewRate_error _ _ _
                · split
                  · exact ⟨_, rfl⟩
                  · split
                    · exact ⟨_, rfl⟩
                    · exact NewRate_error _ _ _
  refine ⟨?_, NewRate_error, hstr, hdict, ?_⟩
  · intro unitType
    simp only [UnitTypeRequests, UnitTypeMegabytes, UnitTypeMegabits]
    omega
  · intro inp
    cases inp with
    | str val => exact hstr val
    | dict val => exact hdict val
    | _ => exact ⟨_, rfl⟩

/-! ## Tokens -/

/-- The header extraction reads its map only through the two header keys. -/
theorem AddRemoveHeadersFromDict_congr (x : Externals) (inp₁ inp₂ : Dict)
    (hadd : inp₁.get? "add-headers" = inp₂.get? "add-headers")
    (hrem : inp₁.get? "remove-headers" = inp₂.get? "remove-headers") :
    AddRemoveHeadersFromDict x inp₁ = AddRemoveHeadersFromDict x inp₂ := by
  simp only [AddRemoveHeadersFromDict, hadd, hrem]

/-- NewReplyFromDict never returns a Forward. -/
theorem NewReplyFromDict_not_forward (inp : Dict) (f : Forward) :
    NewReplyFromDict inp ≠ .ok (.forward f) := by
  intro h
  unfold NewReplyFromDict at h
  split at h
  · cases h
  · split at h
    · cases h
    · split at h
      · cases h
      · split at h
        · cases h
        · split at h
          · cases h
          · cases h

/-- C19: the result of NewForwardFromDict, and so of NewCommandFromObj, does not depend on the
"tokens" key: two maps that agree on every other key give equal results, and every Forward
returned has an empty Tokens list. -/
theorem forward_ignores_tokens (x : Externals) :
    (∀ inp₁ inp₂ : Dict, (∀ key : String, key ≠ "tokens" → inp₁.get? key = inp₂.get? key) →
        NewForwardFromDict x inp₁ = NewForwardFromDict x inp₂ ∧
        NewCommandFromObj x (.dict inp₁) = NewCommandFromObj x (.dict inp₂)) ∧
      (∀ (inp : Dict) (f : Forward),
        NewForwardFromDict x inp = .ok (.forward f) → f.Tokens = []) ∧
      (∀ (inp : Value) (f : Forward),
        NewCommandFromObj x inp = .ok (.forward f) → f.Tokens = []) := by
  have htok : ∀ (inp : Dict) (f : Forward),
      NewForwardFromDict x inp = .ok (.forward f) → f.Tokens = [] := by
    intro inp f h
    unfold NewForwardFromDict at h
    split at h
    · cases h
    · split at h
      · cases h
      · split at h
        · cases h
        · split at h
          · cases h
          · simp only at h
            split at h
            · cases h
            · split at h
              · cases h
              · simp only [Except.ok.injEq, Command.forward.injEq] at h
                subst h
                rfl
  refine ⟨?_, htok, ?_⟩
  · intro inp₁ inp₂ hagree
    have hups := hagree "upstreams" (by decide)
    have hfail := hagree "failover" (by decide)
    have hcode := hagree "code" (by decide)
    have hmsg := hagree "message" (by decide)
    have hhdr := AddRemoveHeadersFromDict_congr x inp₁ inp₂
      (hagree "add-headers" (by decide)) (hagree "remove-headers" (by decide))
    have hfwd : NewForwardFromDict x inp₁ = NewForwardFromDict x inp₂ := by
      simp only [NewForwardFromDict, hups, hfail, hhdr]
    have hreply : NewReplyFromDict inp₁ = NewReplyFromDict inp₂ := by
      simp only [NewReplyFromDict, hcode, hmsg]
    refine ⟨hfwd, ?_⟩
    simp only [NewCommandFromObj, Value.asDict?, hcode, hfwd, hreply]
  · intro inp f h
    unfold NewCommandFromObj at h
    split at h
    · cases h
    · split at h
      · exact absurd h (NewReplyFromDict_not_forward _ f)
      · exact htok _ f h

/-- Witness for C19: adding a "tokens" entry to `{"upstreams":[...]}` changes nothing. -/
theorem forward_ignores_tokens_witness :
    NewForwardFromDict exampleExternals (("tokens", .array [.str "t"]) :: forwardObj) =
      NewForwardFromDict exampleExternals forwardObj :=
  ((forward_ignores_tokens exampleExternals).1 (("tokens", .array [.str "t"]) :: forwardObj)
    forwardObj (fun key hkey => by
      have hb : (key == "tokens") = false := beq_eq_false_iff_ne.mpr hkey
      simp only [Dict.get?, List.lookup, hb])).1

/-! ## Upstream construction -/

/-- NewUpstream succeeds exactly for the schemes "http" and "https" and stores its arguments
unchanged. -/
theorem NewUpstream_ok_iff (scheme host : String) (port : Int) (rewritePath : String)
    (addHeaders removeHeaders : Header) (u : Upstream) :
    NewUpstream scheme host port rewritePath addHeaders removeHeaders = .ok u ↔
      (scheme = "http" ∨ scheme = "https") ∧
        u = { Scheme := scheme, Host := host, Port := port, RewritePath := rewritePath,
              AddHeaders := addHeaders, RemoveHeaders := removeHeaders } := by
  unfold NewUpstream
  constructor
  · intro h
    split at h
    · cases h
    · split at h
      · cases h
      · rename_i hscheme
        refine ⟨?_, (Except.ok.inj h).symm⟩
        by_contra hnot
        exact hscheme ⟨fun h1 => hnot (Or.inl h1), fun h2 => hnot (Or.inr h2)⟩
  · rintro ⟨hscheme, hu⟩
    have hsize : scheme.utf8ByteSize ≠ 0 := by
      rcases hscheme with h1 | h1 <;> subst h1 <;> decide
    have hguard : ¬ (scheme ≠ "http" ∧ scheme ≠ "https") := by
      rintro ⟨h1, h2⟩
      rcases hscheme with h | h
      · exact h1 h
      · exact h2 h
    rw [if_neg hsize, if_neg hguard, hu]

/-- The two parts of a split are the text before the first colon and the text after it. -/
theorem splitFirstColon_two (s host portS : String) (h : splitFirstColon s = [host, portS]) :
    s.toList = host.toList ++ ':' :: portS.toList ∧ ':' ∉ host.toList := by
  unfold splitFirstColon at h
  have happ := List.takeWhile_append_dropWhile (fun c => decide (c ≠ ':')) s.toList
  split at h
  · simp at h
  · rename_i c after hdrop
    simp only [List.cons.injEq, and_true] at h
    obtain ⟨hhost, hport⟩ := h
    have hne : (s.toList.dropWhile (fun c => decide (c ≠ ':'))) ≠ [] := by
      rw [hdrop]; exact List.cons_ne_nil _ _
    have hhead := List.head_dropWhile_not (fun c => decide (c ≠ ':')) s.toList hne
    have hc : c = ':' := by
      simp only [hdrop, List.head_cons] at hhead
      simpa using hhead
    subst hc
    subst hhost
    subst hport
    refine ⟨?_, ?_⟩
    · rw [hdrop] at happ
      exact happ.symm
    · intro hmem
      have := List.mem_takeWhile_imp hmem
      simp at this

/-- A string without a colon is not split. -/
theorem splitFirstColon_one (s : String) (h : ':' ∉ s.toList) : splitFirstColon s = [s] := by
  unfold splitFirstColon
  have hall : s.toList.dropWhile (fun c => decide (c ≠ ':')) = [] := by
    rw [List.dropWhile_eq_nil_iff]
    intro c hc
    have : c ≠ ':' := fun heq => h (heq ▸ hc)
    simpa using this
  rw [hall]

/-- C11: a nil URL fails; for a non-nil URL, NewUpstreamFromUrl splits url.Host on the first
colon and succeeds if and only if that gives exactly two parts, the second part parses as an
integer port, and the scheme is "http" or "https"; the Upstream is then {url.Scheme, the part
before the colon, the parsed port, url.Path} with no header mutations.
`http://example.com:8080/foo` yields {http, example.com, 8080, /foo}. -/
theorem NewUpstreamFromUrl_spec :
    (∃ err, NewUpstreamFromUrl none = .error err) ∧
      (∀ (url : URL) (u : Upstream), NewUpstreamFromUrl (some url) = .ok u ↔
        ∃ (host portS : String) (port : Int),
          splitFirstColon url.Host = [host, portS] ∧ Atoi portS = .ok port ∧
          (url.Scheme = "http" ∨ url.Scheme = "https") ∧
          u = { Scheme := url.Scheme, Host := host, Port := port, RewritePath := url.Path,
                AddHeaders := [], RemoveHeaders := [] }) ∧
      (∀ s host portS : String, splitFirstColon s = [host, portS] →
        s.toList = host.toList ++ ':' :: portS.toList ∧ ':' ∉ host.toList) ∧
      (∀ s : String, ':' ∉ s.toList → splitFirstColon s = [s]) ∧
      NewUpstreamFromUrl (some { Scheme := "http", Host := "example.com:8080", Path := "/foo" }) =
        .ok { Scheme := "http", Host := "example.com", Port := 8080, RewritePath := "/foo",
              AddHeaders := [], RemoveHeaders := [] } := by
  refine ⟨⟨_, rfl⟩, ?_, splitFirstColon_two, splitFirstColon_one, rfl⟩
  intro url u
  unfold NewUpstreamFromUrl
  simp only
  constructor
  · intro h
    split at h
    · cases h
    · rename_i hlen
      have hlen2 : (splitFirstColon url.Host).length = 2 := by
        by_contra hne; exact hlen hne
      obtain ⟨host, portS, hsplit⟩ := List.length_eq_two.mp hlen2
      rw [hsplit] at h
      simp only [List.getD_cons_zero, List.getD_cons_succ] at h
      split at h
      · cases h
      · rename_i port hport
        obtain ⟨hscheme, hu⟩ := (NewUpstream_ok_iff _ _ _ _ _ _ _).mp h
        exact ⟨host, portS, port, hsplit, hport, hscheme, hu⟩
  · rintro ⟨host, portS, port, hsplit, hport, hscheme, hu⟩
    rw [hsplit]
    simp only [List.length_cons, List.length_nil, List.getD_cons_zero, List.getD_cons_succ, hport]
    rw [if_neg (by decide)]
    exact (NewUpstream_ok_iff _ _ _ _ _ _ _).mpr ⟨hscheme, hu⟩

/-- Witness for C11: `10.0.0.1:80` is the host `10.0.0.1`, a colon and the port text `80`, and
a host without a colon is a single part. -/
theorem NewUpstreamFromUrl_spec_witness :
    ("10.0.0.1:80" : String).toList = ("10.0.0.1" : String).toList ++
        ':' :: ("80" : String).toList ∧
      splitFirstColon "localhost" = ["localhost"] :=
  ⟨(NewUpstreamFromUrl_spec.2.2.1 "10.0.0.1:80" "10.0.0.1" "80" rfl).1,
   NewUpstreamFromUrl_spec.2.2.2.1 "localhost" (by decide)⟩

/-- The type assertion to string succeeds exactly on strings. -/
theorem Value.asString?_eq_some (v : Value) (s : String) :
    v.asString? = some s ↔ v = .str s := by
  cases v <;> simp [Value.asString?]

/-- The type assertion to float64 succeeds exactly on numbers. -/
theorem Value.asFloat64?_eq_some (v : Value) (f : Float64) :
    v.asFloat64? = some f ↔ v = .number f := by
  cases v <;> simp [Value.asFloat64?]

/-- The test `port != float64(int(port))` passes exactly for the float64 values that are an
integer within the `int` range, and `int(port)` is then that integer. -/
theorem Float64.int_iff (f : Float64) (n : Int) :
    (f.eq (Float64.ofInt f.toInt) = true ∧ f.toInt = n) ↔
      (f.value? = some (n : ℚ) ∧ minInt64 ≤ n ∧ n ≤ maxInt64) := by
  cases f with
  | finite m e =>
    simp only [Float64.value?, Option.some.injEq]
    constructor
    · rintro ⟨heq, hn⟩
      have hval := (Float64.eq_ofInt_iff m e _).mp heq
      rw [hn] at hval
      exact ⟨hval, hn ▸ (Float64.toInt_range _).1, hn ▸ (Float64.toInt_range _).2⟩
    · rintro ⟨hval, hlo, hhi⟩
      have hto : (Float64.finite m e).toInt = n := Float64.toInt_of_value m e n hval hlo hhi
      refine ⟨?_, hto⟩
      rw [hto]
      exact (Float64.eq_ofInt_iff m e n).mpr hval
  | inf neg => simp [Float64.eq, Float64.ofInt, Float64.value?]
  | nan => simp [Float64.eq, Float64.ofInt, Float64.value?]

/-- On success the header extraction returns two empty sets. -/
theorem AddRemoveHeadersFromDict_ok (x : Externals) (inp : Dict) (p : Header × Header)
    (h : AddRemoveHeadersFromDict x inp = .ok p) : p = ([], []) := by
  unfold AddRemoveHeadersFromDict at h
  simp only at h
  split at h
  · cases h
  · split at h
    · exact (Except.ok.inj h).symm
    · split at h
      · cases h
      · exact (Except.ok.inj h).symm

/-- The header extraction succeeds exactly when each header key that is present parses. -/
theorem AddRemoveHeadersFromDict_ok_iff (x : Externals) (inp : Dict) :
    AddRemoveHeadersFromDict x inp = .ok ([], []) ↔
      (∀ v, inp.get? "add-headers" = some v → ∃ h, HeadersFromObj x v = .ok h) ∧
        (∀ v, inp.get? "remove-headers" = some v → ∃ h, HeadersFromObj x v = .ok h) := by
  unfold AddRemoveHeadersFromDict
  cases hadd : inp.get? "add-headers" with
  | none =>
    cases hrem : inp.get? "remove-headers" with
    | none => simp
    | some r =>
      cases hr : HeadersFromObj x r with
      | error e => simp [hr]
      | ok hh => simp [hr]
  | some a =>
    cases ha : HeadersFromObj x a with
    | error e => simp [ha]
    | ok ah =>
      cases hrem : inp.get? "remove-headers" with
      | none => simp [ha]
      | some r =>
        cases hr : HeadersFromObj x r with
        | error e => simp [ha, hr]
        | ok hh => simp [ha, hr]

/-- NewUpstreamFromDict: the conditions of success and the Upstream returned. -/
theorem NewUpstreamFromDict_ok_iff (x : Externals) (inp : Dict) (u : Upstream) :
    NewUpstreamFromDict x inp = .ok u ↔
      ∃ (scheme host : String) (portF : Float64) (port : Int) (rewritePath : String),
        inp.get? "scheme" = some (.str scheme) ∧ (scheme = "http" ∨ scheme = "https") ∧
        inp.get? "host" = some (.str host) ∧
        inp.get? "port" = some (.number portF) ∧ portF.value? = some (port : ℚ) ∧
        minInt64 ≤ port ∧ port ≤ maxInt64 ∧
        (inp.get? "rewrite-path" = none ∧ rewritePath = "" ∨
          inp.get? "rewrite-path" = some (.str rewritePath)) ∧
        (∀ v, inp.get? "add-headers" = some v → ∃ h, HeadersFromObj x v = .ok h) ∧
        (∀ v, inp.get? "remove-headers" = some v → ∃ h, HeadersFromObj x v = .ok h) ∧
        u = { Scheme := scheme, Host := host, Port := port, RewritePath := rewritePath,
              AddHeaders := [], RemoveHeaders := [] } := by
  constructor
  · intro h
    unfold NewUpstreamFromDict at h
    split at h
    · cases h
    · rename_i schemeI hscheme
      split at h
      · cases h
      · rename_i scheme hschemeS
        rw [Value.asString?_eq_some] at hschemeS
        subst hschemeS
        split at h
        · cases h
        · rename_i hostI hhost
          split at h
          · cases h
          · rename_i host hhostS
            rw [Value.asString?_eq_some] at hhostS
            subst hhostS
            split at h
            · cases h
            · rename_i portI hport
              split at h
              · cases h
              · rename_i portF hportF
                rw [Value.asFloat64?_eq_some] at hportF
                subst hportF
                split at h
                · cases h
                · rename_i hround
                  simp only [Bool.not_eq_true', Bool.not_eq_false] at hround
                  have hint := (Float64.int_iff portF portF.toInt).mp ⟨hround, rfl⟩
                  simp only at h
                  split at h
                  · cases h
                  · rename_i rewritePath hrw
                    split at h
                    · cases h
                    · rename_i addHeaders removeHeaders hhdr
                      have hnil := AddRemoveHeadersFromDict_ok x inp _ hhdr
                      simp only [Prod.mk.injEq] at hnil
                      obtain ⟨ha, hr⟩ := hnil
                      subst ha
                      subst hr
                      obtain ⟨hsch, hu⟩ := (NewUpstream_ok_iff _ _ _ _ _ _ _).mp h
                      have hparse := (AddRemoveHeadersFromDict_ok_iff x inp).mp hhdr
                      refine ⟨scheme, host, portF, portF.toInt, rewritePath, hscheme, hsch,
                        hhost, hport, hint.1, hint.2.1, hint.2.2, ?_, hparse.1, hparse.2, hu⟩
                      split at hrw
                      · rename_i hnone
                        exact Or.inl ⟨hnone, (Except.ok.inj hrw).symm⟩
                      · rename_i pathI hpath
                        split at hrw
                        · cases hrw
                        · rename_i path hpathS
                          rw [Value.asString?_eq_some] at hpathS
                          subst hpathS
                          have := Except.ok.inj hrw
                          subst this
                          exact Or.inr hpath
  · rintro ⟨scheme, host, portF, port, rewritePath, hscheme, hsch, hhost, hport, hval, hlo, hhi,
      hrw, hadd, hrem, hu⟩
    have hint := (Float64.int_iff portF port).mpr ⟨hval, hlo, hhi⟩
    have hto := hint.2
    have heq : portF.eq (Float64.ofInt port) = true := by
      have h1 := hint.1
      rwa [hto] at h1
    have hhdr := (AddRemoveHeadersFromDict_ok_iff x inp).mpr ⟨hadd, hrem⟩
    have hnew := (NewUpstream_ok_iff scheme host port rewritePath [] [] u).mpr ⟨hsch, hu⟩
    rcases hrw with ⟨hnone, hempty⟩ | hsome
    · subst hempty
      simp [NewUpstreamFromDict, hscheme, hhost, hport, Value.asString?, Value.asFloat64?, hto,
        heq, hnone, hhdr, hnew]
    · simp [NewUpstreamFromDict, hscheme, hhost, hport, Value.asString?, Value.asFloat64?, hto,
        heq, hsome, hhdr, hnew]

/-- C12 (counterexample): in `{"scheme":"http","host":"h","port":2^100}` the scheme is "http",
the host is a string, the port is an integer-valued number and no optional key is present, yet
NewUpstreamFromDict fails: the port does not fit `int`, so `float64(int(port))` differs from
`port`. -/
theorem NewUpstreamFromDict_huge_port_counterexample :
    hugePortObj.get? "scheme" = some (.str "http") ∧
      hugePortObj.get? "host" = some (.str "h") ∧
      hugePortObj.get? "port" = some (.number (.finite 1 100)) ∧
      Float64.value? (.finite 1 100) = some (((2 ^ 100 : Int) : ℚ)) ∧
      hugePortObj.get? "rewrite-path" = none ∧
      hugePortObj.get? "add-headers" = none ∧
      hugePortObj.get? "remove-headers" = none ∧
      NewUpstreamFromDict exampleExternals hugePortObj = .error "Port should be an integer" := by
  refine ⟨rfl, rfl, rfl, ?_, rfl, rfl, rfl, ?_⟩
  · simp only [Float64.value?, Option.some.injEq]
    norm_num
  · simp [NewUpstreamFromDict, hugePortObj, Dict.get?, List.lookup, Value.asString?,
      Value.asFloat64?, Float64.eq, Float64.ofInt, Float64.toInt, Float64.trunc, minInt64,
      maxInt64]

/-- C12 (amended): NewUpstreamFromDict succeeds if and only if "scheme" is present and is the
string "http" or "https", "host" is present and a string, "port" is present and an
integer-valued number within the `int` range (-2^63 .. 2^63 - 1), "rewrite-path" is absent or a
string, and any present "add-headers" / "remove-headers" parse with HeadersFromObj; on success
Scheme, Host and Port are the values of the map and RewritePath is the given string, or ""
when "rewrite-path" is absent. Every Upstream returned by any constructor has Scheme "http" or
"https". -/
theorem NewUpstreamFromDict_spec (x : Externals) :
    (∀ inp : Dict, (∃ u, NewUpstreamFromDict x inp = .ok u) ↔
      (∃ scheme, inp.get? "scheme" = some (.str scheme) ∧
        (scheme = "http" ∨ scheme = "https")) ∧
      (∃ host, inp.get? "host" = some (.str host)) ∧
      (∃ (portF : Float64) (port : Int), inp.get? "port" = some (.number portF) ∧
        portF.value? = some (port : ℚ) ∧ minInt64 ≤ port ∧ port ≤ maxInt64) ∧
      (inp.get? "rewrite-path" = none ∨ ∃ path, inp.get? "rewrite-path" = some (.str path)) ∧
      (∀ v, inp.get? "add-headers" = some v → ∃ h, HeadersFromObj x v = .ok h) ∧
      (∀ v, inp.get? "remove-headers" = some v → ∃ h, HeadersFromObj x v = .ok h)) ∧
    (∀ (inp : Dict) (u : Upstream), NewUpstreamFromDict x inp = .ok u →
      inp.get? "scheme" = some (.str u.Scheme) ∧
      inp.get? "host" = some (.str u.Host) ∧
      (∃ portF : Float64, inp.get? "port" = some (.number portF) ∧
        portF.value? = some (u.Port : ℚ)) ∧
      (inp.get? "rewrite-path" = none ∧ u.RewritePath = "" ∨
        inp.get? "rewrite-path" = some (.str u.RewritePath))) ∧
    (∀ (scheme host : String) (port : Int) (rewritePath : String)
      (addHeaders removeHeaders : Header) (u : Upstream),
      NewUpstream scheme host port rewritePath addHeaders removeHeaders = .ok u →
        u.Scheme = "http" ∨ u.Scheme = "https") ∧
    (∀ (url : Option URL) (u : Upstream), NewUpstreamFromUrl url = .ok u →
      u.Scheme = "http" ∨ u.Scheme = "https") ∧
    (∀ (inp : Dict) (u : Upstream), NewUpstreamFromDict x inp = .ok u →
      u.Scheme = "http" ∨ u.Scheme = "https") ∧
    (∀ (inp : String) (u : Upstream), NewUpstreamFromString x inp = .ok u →
      u.Scheme = "http" ∨ u.Scheme = "https") ∧
    (∀ (inp : Value) (u : Upstream), NewUpstreamFromObj x inp = .ok u →
      u.Scheme = "http" ∨ u.Scheme = "https") := by
  have hnew : ∀ (scheme host : String) (port : Int) (rewritePath : String)
      (addHeaders removeHeaders : Header) (u : Upstream),
      NewUpstream scheme host port rewritePath addHeaders removeHeaders = .ok u →
        u.Scheme = "http" ∨ u.Scheme = "https" := by
    intro scheme host port rewritePath addHeaders removeHeaders u h
    obtain ⟨hsch, hu⟩ := (NewUpstream_ok_iff _ _ _ _ _ _ _).mp h
    subst hu
    exact hsch
  have hurl : ∀ (url : Option URL) (u : Upstream), NewUpstreamFromUrl url = .ok u →
      u.Scheme = "http" ∨ u.Scheme = "https" := by
    intro url u h
    unfold NewUpstreamFromUrl at h
    split at h
    · cases h
    · simp only at h
      split at h
      · cases h
      · split at h
        · cases h
        · exact hnew _ _ _ _ _ _ u h
  have hdict : ∀ (inp : Dict) (u : Upstream), NewUpstreamFromDict x inp = .ok u →
      u.Scheme = "http" ∨ u.Scheme = "https" := by
    intro inp u h
    obtain ⟨scheme, host, portF, port, rewritePath, _, hsch, _, _, _, _, _, _, _, _, hu⟩ :=
      (NewUpstreamFromDict_ok_iff x inp u).mp h
    subst hu
    exact hsch
  have hstr : ∀ (inp : String) (u : Upstream), NewUpstreamFromString x inp = .ok u →
      u.Scheme = "http" ∨ u.Scheme = "https" := by
    intro inp u h
    unfold NewUpstreamFromString at h
    split at h
    · cases h
    · exact hurl _ u h
  refine ⟨?_, ?_, hnew, hurl, hdict, hstr, ?_⟩
  · intro inp
    constructor
    · rintro ⟨u, h⟩
      obtain ⟨scheme, host, portF, port, rewritePath, hscheme, hsch, hhost, hport, hval, hlo,
        hhi, hrw, hadd, hrem, _⟩ := (NewUpstreamFromDict_ok_iff x inp u).mp h
      refine ⟨⟨scheme, hscheme, hsch⟩, ⟨host, hhost⟩, ⟨portF, port, hport, hval, hlo, hhi⟩, ?_,
        hadd, hrem⟩
      rcases hrw with ⟨hnone, _⟩ | hsome
      · exact Or.inl hnone
      · exact Or.inr ⟨rewritePath, hsome⟩
    · rintro ⟨⟨scheme, hscheme, hsch⟩, ⟨host, hhost⟩, ⟨portF, port, hport, hval, hlo, hhi⟩, hrw,
        hadd, hrem⟩
      rcases hrw with hnone | ⟨path, hsome⟩
      · exact ⟨_, (NewUpstreamFromDict_ok_iff x inp _).mpr
          ⟨scheme, host, portF, port, "", hscheme, hsch, hhost, hport, hval, hlo, hhi,
            Or.inl ⟨hnone, rfl⟩, hadd, hrem, rfl⟩⟩
      · exact ⟨_, (NewUpstreamFromDict_ok_iff x inp _).mpr
          ⟨scheme, host, portF, port, path, hscheme, hsch, hhost, hport, hval, hlo, hhi,
            Or.inr hsome, hadd, hrem, rfl⟩⟩
  · intro inp u h
    obtain ⟨scheme, host, portF, port, rewritePath, hscheme, _, hhost, hport, hval, _, _, hrw,
      _, _, hu⟩ := (NewUpstreamFromDict_ok_iff x inp u).mp h
    subst hu
    exact ⟨hscheme, hhost, ⟨portF, hport, hval⟩, hrw⟩
  · intro inp u h
    unfold NewUpstreamFromObj at h
    split at h
    · exact hdict _ u h
    · exact hstr _ u h
    · cases h

/-- Witness for C12 (amended): `{"scheme":"http","host":"h","port":80}` meets the conditions,
and the Upstream built from it has the scheme "http". -/
theorem NewUpstreamFromDict_spec_witness :
    (∃ u, NewUpstreamFromDict exampleExternals upstreamObj = .ok u) ∧
      ((Upstream.mk "http" "h" 80 "" [] []).Scheme = "http" ∨
        (Upstream.mk "http" "h" 80 "" [] []).Scheme = "https") :=
  ⟨((NewUpstreamFromDict_spec exampleExternals).1 upstreamObj).mpr
      ⟨⟨"http", rfl, Or.inl rfl⟩, ⟨"h", rfl⟩,
       ⟨.finite 80 0, 80, rfl, by simp [Float64.value?], by decide, by decide⟩,
       Or.inl rfl, (fun v hv => by cases hv), (fun v hv => by cases hv)⟩,
   (NewUpstreamFromDict_spec exampleExternals).2.2.2.2.1 upstreamObj
      (Upstream.mk "http" "h" 80 "" [] []) rfl⟩

/-! ## The upstream list of a Forward -/

/-- The upstream loop returns, position by position, the results of NewUpstreamFromObj. -/
theorem upstreamsFromObjs_forall₂ (x : Externals) :
    ∀ (objs : List Value) (us : List Upstream), upstreamsFromObjs x objs = .ok us →
      List.Forall₂ (fun o u => NewUpstreamFromObj x o = .ok u) objs us := by
  intro objs
  induction objs with
  | nil =>
    intro us h
    simp only [upstreamsFromObjs, Except.ok.injEq] at h
    subst h
    exact List.Forall₂.nil
  | cons o rest ih =>
    intro us h
    simp only [upstreamsFromObjs] at h
    split at h
    · cases h
    · rename_i u hu
      split at h
      · cases h
      · rename_i us' hrest
        simp only [Except.ok.injEq] at h
        subst h
        exact List.Forall₂.cons hu (ih us' hrest)

/-- The upstream loop stops at the first element that NewUpstreamFromObj rejects and returns
its error. -/
theorem upstreamsFromObjs_first_error (x : Externals) (o : Value) (post : List Value)
    (err : String) (ho : NewUpstreamFromObj x o = .error err) :
    ∀ pre : List Value, (∀ p ∈ pre, ∃ u, NewUpstreamFromObj x p = .ok u) →
      upstreamsFromObjs x (pre ++ o :: post) = .error err := by
  intro pre
  induction pre with
  | nil =>
    intro _
    simp [upstreamsFromObjs, ho]
  | cons p rest ih =>
    intro hall
    obtain ⟨u, hu⟩ := hall p (List.mem_cons_self _ _)
    have hrest := ih (fun q hq => hall q (List.mem_cons_of_mem _ hq))
    simp [upstreamsFromObjs, hu, hrest]

/-- C16: for a map whose "upstreams" is a non-empty array, NewForwardFromDict succeeds only if
NewUpstreamFromObj succeeds on every element and otherwise fails with the error of the first
failing element; on success Forward.Upstreams has the length of the array and its i-th entry is
the result of NewUpstreamFromObj on the i-th element.
`{"upstreams":[{"scheme":"http","host":"h","port":80}]}` gives a Forward with the one Upstream
{http, h, 80, ""}, no failover, no tokens and empty add/remove header sets. -/
theorem NewForwardFromDict_upstreams (x : Externals) :
    (∀ (inp : Dict) (objs : List Value) (f : Forward),
      inp.get? "upstreams" = some (.array objs) → objs ≠ [] →
      NewForwardFromDict x inp = .ok (.forward f) →
        objs.length = f.Upstreams.length ∧
        ∀ (i : Nat) (hi : i < objs.length) (hu : i < f.Upstreams.length),
          NewUpstreamFromObj x (objs.get ⟨i, hi⟩) = .ok (f.Upstreams.get ⟨i, hu⟩)) ∧
    (∀ (inp : Dict) (pre post : List Value) (o : Value) (err : String),
      inp.get? "upstreams" = some (.array (pre ++ o :: post)) →
      (∀ p ∈ pre, ∃ u, NewUpstreamFromObj x p = .ok u) →
      NewUpstreamFromObj x o = .error err →
        NewForwardFromDict x inp = .error err) ∧
    NewForwardFromDict x forwardObj =
      .ok (.forward
        { Failover := none, Tokens := [],
          Upstreams := [{ Scheme := "http", Host := "h", Port := 80, RewritePath := "",
                          AddHeaders := [], RemoveHeaders := [] }],
          AddHeaders := [], RemoveHeaders := [] }) := by
  refine ⟨?_, ?_, rfl⟩
  · intro inp objs f hups _ h
    unfold NewForwardFromDict at h
    rw [hups] at h
    simp only [Value.asArray?] at h
    split at h
    · cases h
    · split at h
      · cases h
      · rename_i upstreams hloop
        split at h
        · cases h
        · split at h
          · cases h
          · simp only [Except.ok.injEq, Command.forward.injEq] at h
            subst h
            exact List.forall₂_iff_get.mp (upstreamsFromObjs_forall₂ x objs upstreams hloop)
  · intro inp pre post o err hups hpre ho
    have hloop := upstreamsFromObjs_first_error x o post err ho pre hpre
    simp [NewForwardFromDict, hups, Value.asArray?, hloop]

/-- Witness for C16: in `{"upstreams":[{...}, 7]}` the first element is accepted and the
second is no upstream, so the directive fails with the error of the second element. -/
theorem NewForwardFromDict_upstreams_witness :
    NewForwardFromDict exampleExternals [("upstreams", .array [.dict upstreamObj, num 7])] =
        .error "Unsupported type %T" ∧
      NewUpstreamFromObj exampleExternals (.dict upstreamObj) =
        .ok { Scheme := "http", Host := "h", Port := 80, RewritePath := "",
              AddHeaders := [], RemoveHeaders := [] } :=
  ⟨(NewForwardFromDict_upstreams exampleExternals).2.1
      [("upstreams", .array [.dict upstreamObj, num 7])] [.dict upstreamObj] [] (num 7)
      "Unsupported type %T" rfl
      (fun p hp => by
        rw [List.mem_singleton] at hp
        subst hp
        exact ⟨_, rfl⟩)
      rfl,
   ((NewForwardFromDict_upstreams exampleExternals).1 forwardObj [.dict upstreamObj]
      (Forward.mk none [] [⟨"http", "h", 80, "", [], []⟩] [] []) rfl (by simp) rfl).2 0
      (by decide) (by decide)⟩

end Instructions
